import Mathlib

/-!
Manifest composition of `kd`.

A shallow embedding of `main.go` of `moonrhythm/kd`: the command-line flags, the
env-file loader `loadEnv`, the secret-name derivation `domainToName` and the
resource composition performed by `main`.

Modelling conventions.

* A Go `string` is a Lean `String` (the Go strings that are valid UTF-8); the
  functions of package `strings` used by the program work on the list of
  characters.
* A Go value built from map and slice literals is a `Val`.  A Go map literal is
  an association list in the order of the literal (its keys are distinct), read
  back only through lookup by key.
* `ioutil.ReadFile` is a parameter `readFile : String → Option String`, `none` when
  the read returns an error.
* `main` returns the flag variables as it leaves them together with what the
  process did: printed the usage text, panicked, or handed one document to the
  YAML encoder on standard output.
-/

namespace Kd

/-! ## Go values -/

/-- A Go map literal `map[string]string`. -/
abbrev StrMap := List (String × String)

/-- The Go values the program builds: strings, integers, `[]string`,
`map[string]string`, `[]map[string]string`, `map[string]interface{}` and
`[]map[string]interface{}`. -/
inductive Val where
  | str (s : String)
  | int (n : Int)
  | strs (xs : List String)
  | strMap (m : StrMap)
  | strMaps (ms : List StrMap)
  | map (m : List (String × Val))
  | maps (ms : List (List (String × Val)))

/-- A Go map literal `map[string]interface{}`. -/
abbrev Obj := List (String × Val)

/-- Value stored under key `k` of a map value (`none` for a missing key or a value
that is not a map). -/
def Val.get? : Val → String → Option Val
  | .map m, k => m.lookup k
  | .strMap m, k => (m.lookup k).map Val.str
  | _, _ => none

/-- Value reached by following a path of keys through nested maps. -/
def Val.path : Val → List String → Option Val
  | v, [] => some v
  | v, k :: ks => match v.get? k with
    | some w => w.path ks
    | none => none

/-- Elements of a slice value. -/
def Val.elems : Val → Option (List Val)
  | .strs xs => some (xs.map Val.str)
  | .strMaps ms => some (ms.map Val.strMap)
  | .maps ms => some (ms.map Val.map)
  | _ => none

/-- Field of a resource reached by a path of keys. -/
def Obj.path (r : Obj) (ks : List String) : Option Val := (Val.map r).path ks

/-- The `kind` of a resource. -/
def Obj.kind (r : Obj) : Option Val := r.path ["kind"]

/-! ## Package `strings` -/

/-- Go `unicode.IsSpace`: the Latin-1 cases `\t \n \v \f \r`, space, U+0085, U+00A0,
and the rest of the `White_Space` table. -/
def isSpace (c : Char) : Bool :=
  let n := c.toNat
  (0x09 ≤ n && n ≤ 0x0D) || n = 0x20 || n = 0x85 || n = 0xA0 || n = 0x1680 ||
  (0x2000 ≤ n && n ≤ 0x200A) || n = 0x2028 || n = 0x2029 || n = 0x202F ||
  n = 0x205F || n = 0x3000

/-- Go `strings.TrimSpace`: drops the leading and the trailing white space. -/
def TrimSpace (s : String) : String :=
  ⟨((s.data.dropWhile isSpace).reverse.dropWhile isSpace).reverse⟩

/-- First occurrence of a non-empty `sep` in a string: the text before it and the
text after it (`strings.Index` followed by the two slicings of `genSplit`). -/
def cut (sep : List Char) : List Char → Option (List Char × List Char)
  | [] => none
  | c :: cs =>
    if sep.isPrefixOf (c :: cs) then some ([], (c :: cs).drop sep.length)
    else match cut sep cs with
      | some (b, a) => some (c :: b, a)
      | none => none

/-- Loop of Go `strings.genSplit` for a non-empty separator: at most `n` cuts, each at
the first occurrence of `sep` in what is left, the rest being the last piece. -/
def genSplit (sep : List Char) : Nat → List Char → List (List Char)
  | 0, s => [s]
  | n + 1, s => match cut sep s with
    | some (b, a) => b :: genSplit sep n a
    | none => [s]

/-- Go `strings.Split(s, sep)` for a non-empty `sep`: cut at every occurrence (there
are at most `len(s)` of them). -/
def Split (s sep : String) : List String :=
  (genSplit sep.data s.length s.data).map String.mk

/-- Go `strings.SplitN(s, sep, n)` for a non-empty `sep` and `n > 0`: at most
`n` pieces, so `n - 1` cuts. -/
def SplitN (s sep : String) (n : Nat) : List String :=
  (genSplit sep.data (n - 1) s.data).map String.mk

/-- Scan of Go `strings.Replace(s, old, new, -1)` for a non-empty `old`: where `old`
starts, `new` is written and the rest of that occurrence (`skip` characters) is
passed over; every other character is copied. -/
def replaceScan (old new : List Char) : Nat → List Char → List Char
  | _, [] => []
  | skip + 1, _ :: cs => replaceScan old new skip cs
  | 0, c :: cs =>
    if old.isPrefixOf (c :: cs) then new ++ replaceScan old new (old.length - 1) cs
    else c :: replaceScan old new 0 cs

/-- Go `strings.ReplaceAll(s, old, new)` for a non-empty `old`. -/
def ReplaceAll (s old new : String) : String :=
  ⟨replaceScan old.data new.data 0 s.data⟩

/-! ## The program -/

/-- The flag variables of the program (`flag.String`, `flag.Int`, `flag.Bool`). -/
structure Flags where
  name : String := ""
  image : String := ""
  env : String := ""
  port : Int := 0
  domain : String := ""
  cert : Bool := false
  certName : String := ""
  hsts : String := ""

/-- Body of the `for _, p := range ps` loop of `loadEnv`: one line `p`, the entries
`xs` collected so far. -/
def loadEnvStep (xs : List StrMap) (p : String) : List StrMap :=
  match SplitN p "=" 2 with
  | [l0, l1] =>
    let n := TrimSpace l0
    let v := TrimSpace l1
    if n = "" then xs
    else xs ++ [[("name", n), ("value", v)]]
  | _ => xs

/-- Go `loadEnv`; `none` is the `panic(err)` after a failed read. -/
def loadEnv (readFile : String → Option String) (filename : String) :
    Option (List StrMap) :=
  let xs : List StrMap := []
  if filename = "" then some xs
  else match readFile filename with
    | none => none
    | some b =>
      if b.length = 0 then some xs
      else
        let ps := Split b "\n"
        some (ps.foldl loadEnvStep xs)

/-- Go `domainToName`. -/
def domainToName (domain : String) : String :=
  ReplaceAll domain "." "-"

/-- The map literal appended when `*image != ""`; `env` is what `loadEnv(*env)`
returned. -/
def deployment (fl : Flags) (env : List StrMap) : Obj :=
  [("apiVersion", .str "apps/v1"),
   ("kind", .str "Deployment"),
   ("metadata", .map [
     ("name", .str fl.name),
     ("labels", .strMap [("app", fl.name)])]),
   ("spec", .map [
     ("replicas", .int 1),
     ("selector", .map [
       ("matchLabels", .strMap [("app", fl.name)])]),
     ("strategy", .map [
       ("type", .str "RollingUpdate"),
       ("rollingUpdate", .map [
         ("maxSurge", .int 1),
         ("maxUnavailable", .int 0)])]),
     ("template", .map [
       ("metadata", .map [
         ("name", .str fl.name),
         ("labels", .strMap [("app", fl.name)])]),
       ("spec", .map [
         ("containers", .maps [[
           ("name", .str "app"),
           ("image", .str fl.image),
           ("env", .strMaps env)]])])])])]

/-- The map literal appended when `*port > 0`. -/
def service (fl : Flags) : Obj :=
  [("apiVersion", .str "v1"),
   ("kind", .str "Service"),
   ("metadata", .map [
     ("name", .str fl.name),
     ("labels", .strMap [("app", fl.name)])]),
   ("spec", .map [
     ("selector", .strMap [("app", fl.name)]),
     ("ports", .maps [[
       ("name", .str "http"),
       ("port", .int 80),
       ("targetPort", .int fl.port)]])])]

/-- The map literal appended when `*domain != ""` and `*cert`. -/
def certificate (fl : Flags) : Obj :=
  [("apiVersion", .str "certmanager.k8s.io/v1alpha1"),
   ("kind", .str "Certificate"),
   ("metadata", .map [
     ("name", .str fl.name),
     ("labels", .strMap [("app", fl.name)])]),
   ("spec", .map [
     ("acme", .map [
       ("commonName", .str fl.domain),
       ("dnsNames", .strs [fl.domain]),
       ("issuerRef", .map [
         ("kind", .str "ClusterIssuer"),
         ("name", .str "letsencrypt")]),
       ("keyAlgorithm", .str "ecdsa"),
       ("keySize", .int 256),
       ("secretName", .str fl.certName),
       ("config", .maps [[
         ("domains", .strs [fl.domain]),
         ("http01", .map [
           ("ingressClass", .str "parapet")])]])])])]

/-- The map literal appended when `*domain != ""`. -/
def ingress (fl : Flags) : Obj :=
  [("apiVersion", .str "extensions/v1beta1"),
   ("kind", .str "Ingress"),
   ("metadata", .map [
     ("name", .str fl.name),
     ("labels", .strMap [("app", fl.name)]),
     ("annotations", .strMap [
       ("kubernetes.io/ingress.class", "parapet"),
       ("parapet.moonrhythm.io/redirect-https",
         if fl.certName = "" then "false" else "true"),
       ("parapet.moonrhythm.io/hsts", fl.hsts)])]),
   ("spec", .map [
     ("rules", .maps [[
       ("host", .str fl.domain),
       ("http", .map [
         ("paths", .maps [[
           ("backend", .map [
             ("serviceName", .str fl.name),
             ("servicePort", .str "http")])]])])]]),
     ("tls", .maps (
       if fl.certName = "" then []
       else [[("secretName", .str fl.certName)]]))])]

/-- What a run of the process did. -/
inductive Outcome where
  /-- `*name == ""`: the usage text and the example go to the output of the flag
  package (standard error); nothing is encoded. -/
  | usage
  /-- `loadEnv` panicked while the Deployment literal was being built: the process
  dies before the encoder is reached. -/
  | panicked
  /-- The document handed to `yaml.NewEncoder(os.Stdout).Encode`. -/
  | encoded (doc : Val)

/-- The `if *image != ""` block on the resources collected so far; `none` when
`loadEnv` panics. -/
def imageBlock (readFile : String → Option String) (fl : Flags)
    (resources : List Obj) : Option (List Obj) :=
  if fl.image ≠ "" then
    match loadEnv readFile fl.env with
    | some env => some (resources ++ [deployment fl env])
    | none => none
  else some resources

/-- The `if *port > 0` block. -/
def portBlock (fl : Flags) (resources : List Obj) : List Obj :=
  if fl.port > 0 then resources ++ [service fl] else resources

/-- The `if *domain != ""` block: it may assign `*certName`, so it returns the flags
as well. -/
def domainBlock (fl : Flags) (resources : List Obj) : Flags × List Obj :=
  if fl.domain ≠ "" then
    let (fl, resources) :=
      if fl.cert then
        let fl := if fl.certName = "" then { fl with certName := domainToName fl.domain } else fl
        (fl, resources ++ [certificate fl])
      else (fl, resources)
    (fl, resources ++ [ingress fl])
  else (fl, resources)

/-- Go `main` after `flag.Parse()`: the flag variables as the run leaves them, and
what the run did. -/
def main (readFile : String → Option String) (fl : Flags) : Flags × Outcome :=
  if fl.name = "" then (fl, .usage)
  else
    let resources : List Obj := []
    match imageBlock readFile fl resources with
    | none => (fl, .panicked)
    | some resources =>
      let resources := portBlock fl resources
      let (fl, resources) := domainBlock fl resources
      (fl, .encoded (.map [
        ("apiVersion", .str "v1"),
        ("kind", .str "List"),
        ("items", .maps resources)]))

/-! ## Observing a run -/

/-- The resources written to standard output: the `items` of the encoded document,
none when nothing was encoded. -/
def Outcome.resources : Outcome → List Obj
  | .encoded doc => match doc.get? "items" with
    | some (.maps rs) => rs
    | _ => []
  | _ => []

/-- The resources a run emits. -/
def emitted (readFile : String → Option String) (fl : Flags) : List Obj :=
  (main readFile fl).2.resources

/-- Whether the `kind` of a resource is the string `k`. -/
def Obj.hasKind (k : String) (r : Obj) : Bool :=
  match r.kind with
  | some (.str s) => s == k
  | _ => false

/-- The resources of one kind among `rs`, in their order. -/
def ofKind (k : String) (rs : List Obj) : List Obj :=
  rs.filter (Obj.hasKind k)

/-- The kinds of the resources `rs`, in their order. -/
def kinds (rs : List Obj) : List (Option Val) :=
  rs.map Obj.kind

/-- What reaches standard output: the encoded document, if any. -/
def Outcome.stdout : Outcome → Option Val
  | .encoded doc => some doc
  | _ => none

/-- The env source does not make the run panic: `loadEnv` is not called (`*image`
is empty), or it does not read (`*env` is empty), or the read succeeds. -/
def envLoads (readFile : String → Option String) (fl : Flags) : Prop :=
  fl.image = "" ∨ fl.env = "" ∨ (readFile fl.env).isSome

/-- The flags as the `if *domain != ""` block leaves them: `*certName` assigned the
derived name when a certificate is requested for a domain and no name is given. -/
def resolved (fl : Flags) : Flags :=
  (domainBlock fl []).1

/-! ## The env-file grammar in the words of the specification -/

/-- Key of a line: the text before its first `=`. -/
def specKey (line : List Char) : List Char :=
  line.takeWhile (fun c => c != '=')

/-- Value of a line: the text after its first `=` (later `=` stay in it). -/
def specValue (line : List Char) : List Char :=
  (line.dropWhile (fun c => c != '=')).drop 1

/-- The specified treatment of the lines of an env file: discard the lines without
`=`, split each line at its first `=`, trim the key and the value, discard the
entries whose trimmed key is empty, keep the rest in line order. -/
def specEntries (lines : List (List Char)) : List StrMap :=
  let withSep := lines.filter (fun l => decide ('=' ∈ l))
  let pairs := withSep.map (fun l => (TrimSpace ⟨specKey l⟩, TrimSpace ⟨specValue l⟩))
  let named := pairs.filter (fun kv => decide (kv.1 ≠ ""))
  named.map (fun kv => [("name", kv.1), ("value", kv.2)])

/-- The specified parse of an env file: split the content into lines on newline and
treat the lines as `specEntries` says. -/
def specLoadEnv (content : String) : List StrMap :=
  specEntries (content.data.splitOn '\n')

/-! ## Concrete runs -/

/-- A file system in which every read fails. -/
def noFile : String → Option String := fun _ => none

/-- A file system holding the one file `app.env`. -/
def oneFile : String → Option String :=
  fun f => if f = "app.env" then some "A=1\nB = two \n\nbad-line\nC=\n" else none

/-- The end-to-end scenario of the specification: image, port, domain and
certificate. -/
def exFull : Flags :=
  { name := "echo", image := "gcr.io/x/echo:1", port := 8080,
    domain := "echo.example.com", cert := true }

/-- The scenario with name and domain only. -/
def exDomainOnly : Flags :=
  { name := "echo", domain := "echo.example.com" }

/-- A secret name given without a certificate request. -/
def exSecretOnly : Flags :=
  { name := "echo", domain := "echo.example.com", certName := "wildcard-tls" }

/-- The full scenario with an env file that cannot be read. -/
def exLostEnv : Flags :=
  { exFull with env := "missing.env" }

/-- An image, a domain and an env file that cannot be read; no certificate. -/
def exLostEnvPlain : Flags :=
  { name := "echo", image := "gcr.io/x/echo:1", env := "missing.env",
    domain := "echo.example.com" }

/-- An unreadable env file and no image. -/
def exLostEnvNoImage : Flags :=
  { name := "echo", env := "missing.env" }

/-- The full scenario with an env file and an explicit secret name. -/
def exEnv : Flags :=
  { exFull with env := "app.env", certName := "echo-tls" }

/-- A file system holding the one file `empty.env`, of length zero. -/
def emptyFile : String → Option String :=
  fun f => if f = "empty.env" then some "" else none

/-- Every flag but the name given, the env file missing. -/
def exNoName : Flags :=
  { exLostEnv with name := "" }

/-! ## Trimmed strings -/

/-- A string without leading and without trailing white space: neither its first
nor its last character, if there is one, is white space for `unicode.IsSpace`. -/
def noOuterSpace (s : String) : Prop :=
  (∀ c, s.data.head? = some c → isSpace c = false) ∧
  (∀ c, s.data.getLast? = some c → isSpace c = false)

end Kd

/-! # Theorems -/

namespace Kd

/-! ## Shape of a run -/

theorem loadEnv_isSome (readFile : String → Option String) (f : String) :
    (loadEnv readFile f).isSome = true ↔ f = "" ∨ (readFile f).isSome = true := by
  unfold loadEnv
  by_cases hf : f = ""
  · simp [hf]
  · cases h : readFile f <;> simp [hf]
    split <;> simp

theorem envLoads_iff (readFile : String → Option String) (fl : Flags) :
    envLoads readFile fl ↔ fl.image = "" ∨ ∃ env, loadEnv readFile fl.env = some env := by
  unfold envLoads
  rw [← Option.isSome_iff_exists, loadEnv_isSome]

theorem loaded_of_envLoads {readFile : String → Option String} {fl : Flags}
    (hl : envLoads readFile fl) :
    fl.image = "" ∨ loadEnv readFile fl.env = some ((loadEnv readFile fl.env).getD []) := by
  rcases (envLoads_iff readFile fl).1 hl with h | ⟨env, h⟩
  · exact Or.inl h
  · exact Or.inr (by rw [h]; rfl)

/-- The resources of a run that does not panic, block by block. -/
theorem emitted_of_loaded {readFile : String → Option String} {fl : Flags}
    {env : List StrMap} (hn : fl.name ≠ "")
    (h : fl.image = "" ∨ loadEnv readFile fl.env = some env) :
    emitted readFile fl =
      (if fl.image ≠ "" then [deployment fl env] else []) ++
      (if fl.port > 0 then [service fl] else []) ++
      (if fl.domain ≠ "" then
        (if fl.cert = true then [certificate (resolved fl)] else []) ++ [ingress (resolved fl)]
       else []) := by
  unfold emitted main
  rw [if_neg hn]
  rcases h with h | h
  · simp only [imageBlock, h, portBlock, domainBlock, resolved]
    by_cases hp : fl.port > 0 <;> by_cases hd : fl.domain = "" <;> cases hc : fl.cert <;>
      simp [hp, hd, hc, Outcome.resources, Val.get?, List.lookup]
  · simp only [imageBlock, h, portBlock, domainBlock, resolved]
    by_cases hi : fl.image = "" <;>
    by_cases hp : fl.port > 0 <;> by_cases hd : fl.domain = "" <;> cases hc : fl.cert <;>
      simp [hi, hp, hd, hc, Outcome.resources, Val.get?, List.lookup]

/-- A run whose env source cannot be loaded panics. -/
theorem main_of_lost {readFile : String → Option String} {fl : Flags}
    (hn : fl.name ≠ "") (hi : fl.image ≠ "") (h : loadEnv readFile fl.env = none) :
    main readFile fl = (fl, Outcome.panicked) := by
  unfold main
  simp [hn, imageBlock, hi, h]

theorem resolved_name (fl : Flags) : (resolved fl).name = fl.name := by
  unfold resolved domainBlock
  by_cases hd : fl.domain = "" <;> cases hc : fl.cert <;> by_cases hs : fl.certName = "" <;>
    simp [hd, hc, hs]

theorem resolved_domain (fl : Flags) : (resolved fl).domain = fl.domain := by
  unfold resolved domainBlock
  by_cases hd : fl.domain = "" <;> cases hc : fl.cert <;> by_cases hs : fl.certName = "" <;>
    simp [hd, hc, hs]

theorem resolved_hsts (fl : Flags) : (resolved fl).hsts = fl.hsts := by
  unfold resolved domainBlock
  by_cases hd : fl.domain = "" <;> cases hc : fl.cert <;> by_cases hs : fl.certName = "" <;>
    simp [hd, hc, hs]

/-- The secret name in effect after the domain block. -/
theorem resolved_certName (fl : Flags) (hd : fl.domain ≠ "") :
    (resolved fl).certName =
      if fl.cert = true ∧ fl.certName = "" then domainToName fl.domain else fl.certName := by
  unfold resolved domainBlock
  cases hc : fl.cert <;> by_cases hs : fl.certName = "" <;> simp [hd, hc, hs]

theorem hasKind_deployment (k : String) (fl : Flags) (env : List StrMap) :
    Obj.hasKind k (deployment fl env) = ("Deployment" == k) := rfl

theorem hasKind_service (k : String) (fl : Flags) :
    Obj.hasKind k (service fl) = ("Service" == k) := rfl

theorem hasKind_certificate (k : String) (fl : Flags) :
    Obj.hasKind k (certificate fl) = ("Certificate" == k) := rfl

theorem hasKind_ingress (k : String) (fl : Flags) :
    Obj.hasKind k (ingress fl) = ("Ingress" == k) := rfl

theorem ofKind_deployment_emitted {readFile : String → Option String} {fl : Flags}
    {env : List StrMap} (hn : fl.name ≠ "")
    (h : fl.image = "" ∨ loadEnv readFile fl.env = some env) :
    ofKind "Deployment" (emitted readFile fl) =
      if fl.image ≠ "" then [deployment fl env] else [] := by
  rw [emitted_of_loaded hn h]
  by_cases hi : fl.image = "" <;> by_cases hp : fl.port > 0 <;>
    by_cases hd : fl.domain = "" <;> cases hc : fl.cert <;>
    simp [ofKind, hi, hp, hd, hasKind_deployment, hasKind_service,
      hasKind_certificate, hasKind_ingress]

theorem ofKind_service_emitted {readFile : String → Option String} {fl : Flags}
    {env : List StrMap} (hn : fl.name ≠ "")
    (h : fl.image = "" ∨ loadEnv readFile fl.env = some env) :
    ofKind "Service" (emitted readFile fl) =
      if fl.port > 0 then [service fl] else [] := by
  rw [emitted_of_loaded hn h]
  by_cases hi : fl.image = "" <;> by_cases hp : fl.port > 0 <;>
    by_cases hd : fl.domain = "" <;> cases hc : fl.cert <;>
    simp [ofKind, hi, hp, hd, hasKind_deployment, hasKind_service,
      hasKind_certificate, hasKind_ingress]

theorem ofKind_certificate_emitted {readFile : String → Option String} {fl : Flags}
    {env : List StrMap} (hn : fl.name ≠ "")
    (h : fl.image = "" ∨ loadEnv readFile fl.env = some env) :
    ofKind "Certificate" (emitted readFile fl) =
      if fl.domain ≠ "" ∧ fl.cert = true then [certificate (resolved fl)] else [] := by
  rw [emitted_of_loaded hn h]
  by_cases hi : fl.image = "" <;> by_cases hp : fl.port > 0 <;>
    by_cases hd : fl.domain = "" <;> cases hc : fl.cert <;>
    simp [ofKind, hi, hp, hd, hasKind_deployment, hasKind_service,
      hasKind_certificate, hasKind_ingress]

theorem ofKind_ingress_emitted {readFile : String → Option String} {fl : Flags}
    {env : List StrMap} (hn : fl.name ≠ "")
    (h : fl.image = "" ∨ loadEnv readFile fl.env = some env) :
    ofKind "Ingress" (emitted readFile fl) =
      if fl.domain ≠ "" then [ingress (resolved fl)] else [] := by
  rw [emitted_of_loaded hn h]
  by_cases hi : fl.image = "" <;> by_cases hp : fl.port > 0 <;>
    by_cases hd : fl.domain = "" <;> cases hc : fl.cert <;>
    simp [ofKind, hi, hp, hd, hasKind_deployment, hasKind_service,
      hasKind_certificate, hasKind_ingress]

theorem ingress_tls (fl : Flags) :
    (ingress fl).path ["spec", "tls"] =
      some (.maps (if fl.certName = "" then [] else [[("secretName", .str fl.certName)]])) :=
  rfl

theorem ingress_redirect (fl : Flags) :
    (ingress fl).path ["metadata", "annotations", "parapet.moonrhythm.io/redirect-https"] =
      some (.str (if fl.certName = "" then "false" else "true")) :=
  rfl

theorem certificate_secretName (fl : Flags) :
    (certificate fl).path ["spec", "acme", "secretName"] = some (.str fl.certName) :=
  rfl

/-! ## C1: no certificate requested -/

/-- C1, as stated, fails in two ways. With `cert=false` and a secret name given
(`exSecretOnly`) the Ingress has the one-entry tls list with that name and
redirect-https `"true"`. With an image and an env file that cannot be read
(`exLostEnvPlain`) the run panics and no Ingress is emitted at all. -/
theorem c1_refuted :
    (exSecretOnly.name ≠ "" ∧ exSecretOnly.domain ≠ "" ∧ exSecretOnly.cert = false ∧
      ofKind "Ingress" (emitted noFile exSecretOnly) = [ingress exSecretOnly] ∧
      (ingress exSecretOnly).path ["spec", "tls"] =
        some (.maps [[("secretName", .str "wildcard-tls")]]) ∧
      (ingress exSecretOnly).path
          ["metadata", "annotations", "parapet.moonrhythm.io/redirect-https"] =
        some (.str "true")) ∧
    (exLostEnvPlain.name ≠ "" ∧ exLostEnvPlain.domain ≠ "" ∧ exLostEnvPlain.cert = false ∧
      (main noFile exLostEnvPlain).2 = Outcome.panicked ∧
      ofKind "Ingress" (emitted noFile exLostEnvPlain) = []) :=
  ⟨⟨by decide, by decide, rfl, rfl, rfl, rfl⟩, ⟨by decide, by decide, rfl, rfl, rfl⟩⟩

/-- C1 (amended): for every input with a non-empty name, a non-empty domain and
`cert=false` whose env source does not make the run panic, the output contains no
Certificate resource and exactly one Ingress; with an empty cert-name its tls list
is empty and its redirect-https annotation is `"false"`, and with a non-empty
cert-name its tls list is the single entry with that secret name and the annotation
is `"true"`. -/
theorem c1_ingress_without_cert (readFile : String → Option String) (fl : Flags)
    (hn : fl.name ≠ "") (hd : fl.domain ≠ "") (hc : fl.cert = false)
    (hl : envLoads readFile fl) :
    ofKind "Certificate" (emitted readFile fl) = [] ∧
    ∃ ing, ofKind "Ingress" (emitted readFile fl) = [ing] ∧
      (fl.certName = "" →
        ing.path ["spec", "tls"] = some (.maps []) ∧
        ing.path ["metadata", "annotations", "parapet.moonrhythm.io/redirect-https"] =
          some (.str "false")) ∧
      (fl.certName ≠ "" →
        ing.path ["spec", "tls"] = some (.maps [[("secretName", .str fl.certName)]]) ∧
        ing.path ["metadata", "annotations", "parapet.moonrhythm.io/redirect-https"] =
          some (.str "true")) := by
  have h := loaded_of_envLoads hl
  have hr : (resolved fl).certName = fl.certName := by
    rw [resolved_certName fl hd]; simp [hc]
  refine ⟨?_, ingress (resolved fl), ?_, ?_, ?_⟩
  · rw [ofKind_certificate_emitted hn h]; simp [hc]
  · rw [ofKind_ingress_emitted hn h]; simp [hd]
  · intro hs
    rw [ingress_tls, ingress_redirect, hr]
    simp [hs]
  · intro hs
    rw [ingress_tls, ingress_redirect, hr]
    simp [hs]

/-- C1 (amended) at the name-and-domain scenario: no Certificate, one Ingress with
an empty tls list and redirect-https `"false"`. -/
theorem c1_ingress_without_cert_witness :
    ofKind "Certificate" (emitted noFile exDomainOnly) = [] ∧
    ∃ ing, ofKind "Ingress" (emitted noFile exDomainOnly) = [ing] ∧
      ing.path ["spec", "tls"] = some (.maps []) ∧
      ing.path ["metadata", "annotations", "parapet.moonrhythm.io/redirect-https"] =
        some (.str "false") :=
  have h := c1_ingress_without_cert noFile exDomainOnly (by decide) (by decide) rfl (Or.inl rfl)
  ⟨h.1, h.2.elim fun ing hi => ⟨ing, hi.1, hi.2.1 rfl⟩⟩

/-! ## C2: the derived secret name -/

/-- Replacing the one character `.` by `-` keeps every other character in place. -/
theorem replaceScan_dot (s : List Char) :
    replaceScan ['.'] ['-'] 0 s = s.map (fun c => if c = '.' then '-' else c) := by
  induction s with
  | nil => rfl
  | cons c cs ih =>
    by_cases hc : c = '.'
    · subst hc
      simp [replaceScan, List.isPrefixOf, ih]
    · have hc2 : ¬ ('.' = c) := fun h => hc h.symm
      simp [replaceScan, List.isPrefixOf, ih, hc, hc2]

theorem domainToName_data (d : String) :
    (domainToName d).data = d.data.map (fun c => if c = '.' then '-' else c) :=
  replaceScan_dot d.data

theorem domainToName_ne_empty (d : String) (h : d ≠ "") : domainToName d ≠ "" := by
  intro he
  have h1 := domainToName_data d
  rw [he] at h1
  have h2 : d.data = [] := by
    cases hd : d.data with
    | nil => rfl
    | cons c cs => rw [hd] at h1; simp at h1
  exact h (String.ext h2)

/-- C2, as stated, fails when the run panics: with an image and an env file that
cannot be read (`exLostEnv`, which has a domain, `cert=true` and no cert-name)
neither a Certificate nor an Ingress is emitted. -/
theorem c2_refuted :
    exLostEnv.name ≠ "" ∧ exLostEnv.domain ≠ "" ∧ exLostEnv.cert = true ∧
    exLostEnv.certName = "" ∧
    (main noFile exLostEnv).2 = Outcome.panicked ∧
    ofKind "Certificate" (emitted noFile exLostEnv) = [] ∧
    ofKind "Ingress" (emitted noFile exLostEnv) = [] :=
  ⟨by decide, by decide, rfl, rfl, rfl, rfl, rfl⟩

/-- C2 (amended): for every input with a non-empty name, a non-empty domain,
`cert=true` and an empty cert-name whose env source does not make the run panic,
the output has exactly one Certificate, whose secretName is the domain with every
`.` replaced by `-`, and exactly one Ingress, whose tls list is the single entry
with that same secretName. -/
theorem c2_derived_secret_name (readFile : String → Option String) (fl : Flags)
    (hn : fl.name ≠ "") (hd : fl.domain ≠ "") (hc : fl.cert = true)
    (hs : fl.certName = "") (hl : envLoads readFile fl) :
    ∃ crt ing,
      ofKind "Certificate" (emitted readFile fl) = [crt] ∧
      crt.path ["spec", "acme", "secretName"] = some (.str (ReplaceAll fl.domain "." "-")) ∧
      ofKind "Ingress" (emitted readFile fl) = [ing] ∧
      ing.path ["spec", "tls"] =
        some (.maps [[("secretName", .str (ReplaceAll fl.domain "." "-"))]]) := by
  have h := loaded_of_envLoads hl
  have hr : (resolved fl).certName = domainToName fl.domain := by
    rw [resolved_certName fl hd]; simp [hc, hs]
  refine ⟨certificate (resolved fl), ingress (resolved fl), ?_, ?_, ?_, ?_⟩
  · rw [ofKind_certificate_emitted hn h]; simp [hd, hc]
  · rw [certificate_secretName, hr]; rfl
  · rw [ofKind_ingress_emitted hn h]; simp [hd]
  · rw [ingress_tls, hr, if_neg (domainToName_ne_empty fl.domain hd)]; rfl

/-- C2 (amended) at the end-to-end scenario: `echo.example.com` gives
`echo-example-com` in both resources. -/
theorem c2_derived_secret_name_witness :
    ReplaceAll exFull.domain "." "-" = "echo-example-com" ∧
    ∃ crt ing,
      ofKind "Certificate" (emitted noFile exFull) = [crt] ∧
      crt.path ["spec", "acme", "secretName"] =
        some (.str (ReplaceAll exFull.domain "." "-")) ∧
      ofKind "Ingress" (emitted noFile exFull) = [ing] ∧
      ing.path ["spec", "tls"] =
        some (.maps [[("secretName", .str (ReplaceAll exFull.domain "." "-"))]]) :=
  ⟨by decide,
    c2_derived_secret_name noFile exFull (by decide) (by decide) rfl rfl (Or.inr (Or.inl rfl))⟩

/-! ## C3: the order of the resources -/

theorem ite_singleton_sublist {α : Type} (c : Prop) [Decidable c] (x : α) :
    List.Sublist (if c then [x] else []) [x] := by
  by_cases h : c <;> simp [h]

/-- The kinds of a run that does not panic, block by block. -/
theorem kinds_of_loaded {readFile : String → Option String} {fl : Flags}
    {env : List StrMap} (hn : fl.name ≠ "")
    (h : fl.image = "" ∨ loadEnv readFile fl.env = some env) :
    kinds (emitted readFile fl) =
      (if fl.image ≠ "" then [some (Val.str "Deployment")] else []) ++
      (if fl.port > 0 then [some (Val.str "Service")] else []) ++
      ((if fl.domain ≠ "" ∧ fl.cert = true then [some (Val.str "Certificate")] else []) ++
       (if fl.domain ≠ "" then [some (Val.str "Ingress")] else [])) := by
  rw [emitted_of_loaded hn h]
  by_cases hi : fl.image = "" <;> by_cases hp : fl.port > 0 <;>
    by_cases hd : fl.domain = "" <;> cases hc : fl.cert <;>
    simp [kinds, hi, hp, hd] <;> (try constructor) <;> (try constructor) <;>
    (try constructor) <;> rfl

theorem loadEnv_lost {readFile : String → Option String} {f : String}
    (hf : f ≠ "") (hr : readFile f = none) : loadEnv readFile f = none := by
  simp [loadEnv, hf, hr]

/-- A run either panics, emitting nothing, or loads its env source. -/
theorem emitted_cases (readFile : String → Option String) (fl : Flags) (hn : fl.name ≠ "") :
    emitted readFile fl = [] ∨
    (fl.image = "" ∨ loadEnv readFile fl.env = some ((loadEnv readFile fl.env).getD [])) := by
  by_cases hi : fl.image = ""
  · exact Or.inr (Or.inl hi)
  · cases h : loadEnv readFile fl.env with
    | none => left; unfold emitted; rw [main_of_lost hn hi h]; rfl
    | some env => right; right; rfl

/-- C3, as stated, fails when the run panics: `exLostEnv` has an image, a positive
port, a domain and `cert=true`, and its env file cannot be read; nothing is
emitted. -/
theorem c3_refuted :
    exLostEnv.name ≠ "" ∧ exLostEnv.image ≠ "" ∧ exLostEnv.port > 0 ∧
    exLostEnv.domain ≠ "" ∧ exLostEnv.cert = true ∧
    (main noFile exLostEnv).2 = Outcome.panicked ∧
    emitted noFile exLostEnv = [] :=
  ⟨by decide, by decide, by decide, by decide, rfl, rfl, rfl⟩

/-- C3 (amended): for every input with a non-empty name the kinds of the emitted
resources form a sublist of [Deployment, Service, Certificate, Ingress], each kind at
most once; with image, port > 0, domain and `cert=true` all given and an env source
that does not make the run panic, the output is exactly four resources of the kinds
Deployment, Service, Certificate, Ingress in that order. -/
theorem c3_kind_order (readFile : String → Option String) (fl : Flags)
    (hn : fl.name ≠ "") :
    List.Sublist (kinds (emitted readFile fl))
      [some (.str "Deployment"), some (.str "Service"), some (.str "Certificate"),
       some (.str "Ingress")] ∧
    (kinds (emitted readFile fl)).Nodup ∧
    (fl.image ≠ "" → fl.port > 0 → fl.domain ≠ "" → fl.cert = true →
      envLoads readFile fl →
      (emitted readFile fl).length = 4 ∧
      kinds (emitted readFile fl) =
        [some (.str "Deployment"), some (.str "Service"), some (.str "Certificate"),
         some (.str "Ingress")]) := by
  have hsub : List.Sublist (kinds (emitted readFile fl))
      [some (.str "Deployment"), some (.str "Service"), some (.str "Certificate"),
       some (.str "Ingress")] := by
    rcases emitted_cases readFile fl hn with h | h
    · rw [h]; exact List.nil_sublist _
    · rw [kinds_of_loaded hn h]
      exact ((ite_singleton_sublist _ _).append (ite_singleton_sublist _ _)).append
        ((ite_singleton_sublist _ _).append (ite_singleton_sublist _ _))
  refine ⟨hsub, hsub.nodup (by simp), ?_⟩
  intro hi hp hd hc hl
  have h := loaded_of_envLoads hl
  constructor
  · rw [emitted_of_loaded hn h]; simp [hi, hp, hd, hc]
  · rw [kinds_of_loaded hn h]; simp [hi, hp, hd, hc]

/-- C3 (amended) at the end-to-end scenario. -/
theorem c3_kind_order_witness :
    List.Sublist (kinds (emitted noFile exFull))
      [some (.str "Deployment"), some (.str "Service"), some (.str "Certificate"),
       some (.str "Ingress")] ∧
    (kinds (emitted noFile exFull)).Nodup ∧
    (emitted noFile exFull).length = 4 ∧
    kinds (emitted noFile exFull) =
      [some (.str "Deployment"), some (.str "Service"), some (.str "Certificate"),
       some (.str "Ingress")] :=
  have h := c3_kind_order noFile exFull (by decide)
  ⟨h.1, h.2.1, h.2.2 (by decide) (by decide) (by decide) rfl (Or.inr (Or.inl rfl))⟩

/-! ## C4: an env source that cannot be read -/

/-- C4, as stated, fails when no image is given: with an unreadable env file and an
empty image (`exLostEnvNoImage`) `loadEnv` is never called, the run does not abort
and the list document, with no items, is written. -/
theorem c4_refuted :
    exLostEnvNoImage.name ≠ "" ∧ exLostEnvNoImage.env ≠ "" ∧
    noFile exLostEnvNoImage.env = none ∧
    (main noFile exLostEnvNoImage).2 =
      Outcome.encoded (.map [
        ("apiVersion", .str "v1"), ("kind", .str "List"), ("items", .maps [])]) :=
  ⟨by decide, by decide, rfl, rfl⟩

/-- C4 (amended): for every input with a non-empty name and a non-empty env source
that cannot be read, the program aborts and writes nothing when an image is given,
whatever the other parameters; when no image is given the env source is never read
and the list document is written. -/
theorem c4_unreadable_env (readFile : String → Option String) (fl : Flags)
    (hn : fl.name ≠ "") (he : fl.env ≠ "") (hr : readFile fl.env = none) :
    (fl.image ≠ "" →
      (main readFile fl).2 = Outcome.panicked ∧
      (main readFile fl).2.stdout = none ∧
      emitted readFile fl = []) ∧
    (fl.image = "" → ∃ doc, (main readFile fl).2.stdout = some doc) := by
  constructor
  · intro hi
    have h := main_of_lost hn hi (loadEnv_lost he hr)
    unfold emitted
    rw [h]
    exact ⟨rfl, rfl, rfl⟩
  · intro hi
    unfold main
    simp [hn, imageBlock, hi, Outcome.stdout]

/-- C4 (amended) at the full scenario with a missing env file: the run aborts and
writes nothing. -/
theorem c4_unreadable_env_witness :
    (main noFile exLostEnv).2 = Outcome.panicked ∧
    (main noFile exLostEnv).2.stdout = none ∧
    emitted noFile exLostEnv = [] :=
  (c4_unreadable_env noFile exLostEnv (by decide) (by decide) rfl).1 (by decide)


/-! ## C5: the env-file grammar -/

/-- Cutting at a one-character separator: the text before its first occurrence and
the text after it. -/
theorem cut_single (a : Char) (s : List Char) :
    cut [a] s =
      if a ∈ s then
        some (s.takeWhile (fun c => c != a), (s.dropWhile (fun c => c != a)).drop 1)
      else none := by
  induction s with
  | nil => rfl
  | cons c cs ih =>
    by_cases hc : c = a
    · subst hc
      simp [cut, List.isPrefixOf]
    · have hc2 : ¬ (a = c) := fun h => hc h.symm
      have hb : (c != a) = true := by simp [hc]
      by_cases hm : a ∈ cs
      · simp [cut, List.isPrefixOf, ih, hc, hc2, hm, List.takeWhile, List.dropWhile, hb]
      · simp [cut, List.isPrefixOf, ih, hc, hc2, hm]

theorem cut_some (a : Char) (s b r : List Char) (h : cut [a] s = some (b, r)) :
    s = b ++ a :: r ∧ a ∉ b := by
  induction s generalizing b with
  | nil => simp [cut] at h
  | cons c cs ih =>
    by_cases hc : c = a
    · subst hc
      simp [cut, List.isPrefixOf] at h
      obtain ⟨h1, h2⟩ := h
      subst h1 h2
      simp
    · have hc2 : ¬ (a = c) := fun h => hc h.symm
      have hp : List.isPrefixOf [a] (c :: cs) = false := by simp [List.isPrefixOf, hc2]
      unfold cut at h
      rw [hp] at h
      cases hr : cut [a] cs with
      | none => rw [hr] at h; simp at h
      | some p =>
        obtain ⟨b2, r2⟩ := p
        rw [hr] at h
        simp at h
        obtain ⟨h1, h2⟩ := h
        subst h1 h2
        obtain ⟨e1, e2⟩ := ih b2 hr
        constructor
        · rw [e1]; simp
        · simp [hc2, e2]

theorem cut_none (a : Char) (s : List Char) (h : cut [a] s = none) : a ∉ s := by
  rw [cut_single] at h
  by_contra hm
  simp [hm] at h

/-- With as many cuts allowed as the text has characters, `genSplit` at a
one-character separator splits at every occurrence. -/
theorem genSplit_single (a : Char) (n : Nat) (s : List Char) (hn : s.length ≤ n) :
    genSplit [a] n s = s.splitOn a := by
  induction n generalizing s with
  | zero =>
    have : s = [] := List.length_eq_zero.mp (Nat.le_zero.mp hn)
    subst this
    rfl
  | succ n ih =>
    unfold genSplit
    cases hc : cut [a] s with
    | none =>
      have hm := cut_none a s hc
      simp only []
      rw [List.splitOn, List.splitOnP_eq_single]
      intro x hx
      simp only [beq_iff_eq]
      intro hxa
      exact hm (hxa ▸ hx)
    | some p =>
      obtain ⟨b, r⟩ := p
      obtain ⟨e1, e2⟩ := cut_some a s b r hc
      simp only []
      have hlen : r.length ≤ n := by
        rw [e1] at hn
        simp at hn
        omega
      rw [ih r hlen, e1, List.splitOn, List.splitOn,
        List.splitOnP_first (fun x => x == a) b _ a (beq_self_eq_true a)]
      intro x hx
      simp only [beq_iff_eq]
      intro hxa
      exact e2 (hxa ▸ hx)

theorem splitN_two (l : List Char) :
    SplitN ⟨l⟩ "=" 2 =
      if '=' ∈ l then [⟨specKey l⟩, ⟨specValue l⟩] else [⟨l⟩] := by
  have h : SplitN ⟨l⟩ "=" 2 = (genSplit ['='] 1 l).map String.mk := rfl
  rw [h]
  unfold genSplit
  rw [cut_single]
  by_cases hm : '=' ∈ l
  · simp [hm, genSplit, specKey, specValue]
  · simp [hm]

/-- One turn of the loop adds to the entries what the specification keeps of the
line. -/
theorem loadEnvStep_eq (xs : List StrMap) (l : List Char) :
    loadEnvStep xs ⟨l⟩ = xs ++ specEntries [l] := by
  unfold loadEnvStep
  rw [splitN_two]
  by_cases hm : '=' ∈ l
  · by_cases hk : TrimSpace ⟨specKey l⟩ = ""
    · simp [hm, hk, specEntries]
    · simp [hm, hk, specEntries]
  · simp [hm, specEntries]

theorem specEntries_cons (l : List Char) (ls : List (List Char)) :
    specEntries (l :: ls) = specEntries [l] ++ specEntries ls := by
  by_cases hm : '=' ∈ l
  · by_cases hk : TrimSpace ⟨specKey l⟩ = ""
    · simp [hm, hk, specEntries]
    · simp [hm, hk, specEntries]
  · simp [hm, specEntries]

/-- The loop of `loadEnv` over the lines computes the specified entries. -/
theorem foldl_loadEnvStep (ls : List (List Char)) (xs : List StrMap) :
    (ls.map String.mk).foldl loadEnvStep xs = xs ++ specEntries ls := by
  induction ls generalizing xs with
  | nil => simp [specEntries]
  | cons l ls ih =>
    rw [List.map_cons, List.foldl_cons, ih, loadEnvStep_eq, specEntries_cons l ls,
      List.append_assoc]

/-- C5: for every file content, `loadEnv` on a file with that content returns
exactly the list the specification describes: the content split on newline, the
lines without `=` dropped, each remaining line split at its first `=` only, key and
value trimmed independently, the entries with an empty trimmed key dropped, the rest
kept as name and value in line order (duplicates and empty values included). -/
theorem c5_loadEnv_eq_spec (readFile : String → Option String) (filename content : String)
    (hf : filename ≠ "") (hr : readFile filename = some content) :
    loadEnv readFile filename = some (specLoadEnv content) := by
  unfold loadEnv
  simp only [hf, if_false, hr]
  by_cases hc : content.length = 0
  · have he : content = "" := by
      apply String.ext
      exact List.length_eq_zero.mp hc
    subst he
    rfl
  · rw [if_neg hc]
    have hs : Split content "\n" = (content.data.splitOn '\n').map String.mk := by
      unfold Split
      have hd : ("\n" : String).data = ['\n'] := rfl
      rw [hd, genSplit_single '\n' content.length content.data (Nat.le_refl _)]
    simp only [hs, foldl_loadEnvStep, List.nil_append, specLoadEnv]

/-- C5 at the content of the specification: `A=1`, `B = two `, an empty line, a line
without `=` and `C=` give the entries A=1, B=two and C with the empty value. -/
theorem c5_loadEnv_eq_spec_witness :
    specLoadEnv "A=1\nB = two \n\nbad-line\nC=\n" =
      [[("name", "A"), ("value", "1")], [("name", "B"), ("value", "two")],
       [("name", "C"), ("value", "")]] ∧
    loadEnv oneFile "app.env" = some (specLoadEnv "A=1\nB = two \n\nbad-line\nC=\n") :=
  ⟨by decide, c5_loadEnv_eq_spec oneFile "app.env" _ (by decide) rfl⟩


/-! ## C6: the Ingress -/

theorem exists_hasKind_iff (k : String) (rs : List Obj) :
    (∃ r ∈ rs, Obj.hasKind k r = true) ↔ ofKind k rs ≠ [] := by
  simp [ofKind, List.filter_eq_nil_iff]

theorem ingress_rules (fl : Flags) :
    (ingress fl).path ["spec", "rules"] =
      some (.maps [[
        ("host", .str fl.domain),
        ("http", .map [
          ("paths", .maps [[
            ("backend", .map [
              ("serviceName", .str fl.name),
              ("servicePort", .str "http")])]])])]]) :=
  rfl

/-- C6, as stated, fails when the run panics: `exLostEnv` has a domain, but its env
file cannot be read and no Ingress is emitted. -/
theorem c6_refuted :
    exLostEnv.name ≠ "" ∧ exLostEnv.domain ≠ "" ∧
    (main noFile exLostEnv).2 = Outcome.panicked ∧
    ¬ ∃ r ∈ emitted noFile exLostEnv, Obj.hasKind "Ingress" r = true := by
  refine ⟨by decide, by decide, rfl, ?_⟩
  have h : emitted noFile exLostEnv = [] := rfl
  simp [h]

/-- C6 (amended): for every input with a non-empty name whose env source does not
make the run panic, an Ingress is emitted if and only if the domain is non-empty,
whatever cert, port and image are; and with only name and domain given (no image,
port <= 0, `cert=false`, no cert-name) the output is exactly one resource, the
Ingress, with no Service emitted, whose backend is the service named `name` on the
port named `http`, whose tls list is empty and whose redirect-https is `"false"`. -/
theorem c6_ingress_iff_domain (readFile : String → Option String) (fl : Flags)
    (hn : fl.name ≠ "") :
    (envLoads readFile fl →
      ((∃ r ∈ emitted readFile fl, Obj.hasKind "Ingress" r = true) ↔ fl.domain ≠ "")) ∧
    (fl.image = "" → fl.port ≤ 0 → fl.cert = false → fl.certName = "" → fl.domain ≠ "" →
      ∃ ing rule entry : Obj,
        emitted readFile fl = [ing] ∧
        Obj.hasKind "Ingress" ing = true ∧
        ofKind "Service" (emitted readFile fl) = [] ∧
        Obj.path ing ["spec", "rules"] = some (.maps [rule]) ∧
        Obj.path rule ["http", "paths"] = some (.maps [entry]) ∧
        Obj.path entry ["backend", "serviceName"] = some (.str fl.name) ∧
        Obj.path entry ["backend", "servicePort"] = some (.str "http") ∧
        Obj.path ing ["spec", "tls"] = some (.maps []) ∧
        Obj.path ing ["metadata", "annotations", "parapet.moonrhythm.io/redirect-https"] =
          some (.str "false")) := by
  constructor
  · intro hl
    rw [exists_hasKind_iff, ofKind_ingress_emitted hn (loaded_of_envLoads hl)]
    by_cases hd : fl.domain = "" <;> simp [hd]
  · intro hi hp hc hs hd
    have h : fl.image = "" ∨ loadEnv readFile fl.env = some [] := Or.inl hi
    have hp2 : ¬ fl.port > 0 := not_lt.mpr hp
    have hr : (resolved fl).certName = "" := by
      rw [resolved_certName fl hd]; simp [hc, hs]
    refine ⟨ingress (resolved fl), _, _, ?_, rfl, ?_, ingress_rules _, rfl, ?_, rfl, ?_, ?_⟩
    · rw [emitted_of_loaded hn h]; simp [hi, hp2, hd, hc]
    · rw [ofKind_service_emitted hn h]; simp [hp2]
    · rw [resolved_name]; rfl
    · rw [ingress_tls, hr]; rfl
    · rw [ingress_redirect, hr]; rfl

/-- C6 (amended) at the name-and-domain scenario. -/
theorem c6_ingress_iff_domain_witness :
    ((∃ r ∈ emitted noFile exDomainOnly, Obj.hasKind "Ingress" r = true) ↔
      exDomainOnly.domain ≠ "") ∧
    ∃ ing rule entry : Obj,
      emitted noFile exDomainOnly = [ing] ∧
      Obj.hasKind "Ingress" ing = true ∧
      ofKind "Service" (emitted noFile exDomainOnly) = [] ∧
      Obj.path ing ["spec", "rules"] = some (.maps [rule]) ∧
      Obj.path rule ["http", "paths"] = some (.maps [entry]) ∧
      Obj.path entry ["backend", "serviceName"] = some (.str exDomainOnly.name) ∧
      Obj.path entry ["backend", "servicePort"] = some (.str "http") ∧
      Obj.path ing ["spec", "tls"] = some (.maps []) ∧
      Obj.path ing ["metadata", "annotations", "parapet.moonrhythm.io/redirect-https"] =
        some (.str "false") :=
  have h := c6_ingress_iff_domain noFile exDomainOnly (by decide)
  ⟨h.1 (Or.inl rfl), h.2 rfl (by decide) rfl rfl (by decide)⟩


/-! ## C7: the Certificate -/

/-- C7, as stated, fails when the run panics: `exLostEnv` has a domain and
`cert=true`, but its env file cannot be read and no Certificate is emitted. -/
theorem c7_refuted :
    exLostEnv.name ≠ "" ∧ exLostEnv.domain ≠ "" ∧ exLostEnv.cert = true ∧
    (main noFile exLostEnv).2 = Outcome.panicked ∧
    ¬ ∃ r ∈ emitted noFile exLostEnv, Obj.hasKind "Certificate" r = true := by
  refine ⟨by decide, by decide, rfl, rfl, ?_⟩
  have h : emitted noFile exLostEnv = [] := rfl
  simp [h]

/-- C7 (amended): for every input with a non-empty name whose env source does not
make the run panic, a Certificate is emitted if and only if the domain is non-empty
and cert is true; when emitted there is exactly one, its commonName is the domain,
its dnsNames list is exactly [domain], its issuerRef is the ClusterIssuer
`letsencrypt`, and its secretName is the explicit cert-name when that is non-empty
and otherwise the name derived from the domain. -/
theorem c7_certificate (readFile : String → Option String) (fl : Flags)
    (hn : fl.name ≠ "") (hl : envLoads readFile fl) :
    ((∃ r ∈ emitted readFile fl, Obj.hasKind "Certificate" r = true) ↔
      (fl.domain ≠ "" ∧ fl.cert = true)) ∧
    (fl.domain ≠ "" → fl.cert = true →
      ∃ crt : Obj,
        ofKind "Certificate" (emitted readFile fl) = [crt] ∧
        Obj.path crt ["spec", "acme", "commonName"] = some (.str fl.domain) ∧
        Obj.path crt ["spec", "acme", "dnsNames"] = some (.strs [fl.domain]) ∧
        Obj.path crt ["spec", "acme", "issuerRef", "kind"] = some (.str "ClusterIssuer") ∧
        Obj.path crt ["spec", "acme", "issuerRef", "name"] = some (.str "letsencrypt") ∧
        Obj.path crt ["spec", "acme", "secretName"] =
          some (.str (if fl.certName ≠ "" then fl.certName else domainToName fl.domain))) := by
  have h := loaded_of_envLoads hl
  constructor
  · rw [exists_hasKind_iff, ofKind_certificate_emitted hn h]
    by_cases hd : fl.domain = "" <;> cases hc : fl.cert <;> simp [hd]
  · intro hd hc
    refine ⟨certificate (resolved fl), ?_, ?_, ?_, rfl, rfl, ?_⟩
    · rw [ofKind_certificate_emitted hn h]; simp [hd, hc]
    · rw [← resolved_domain fl]; rfl
    · rw [← resolved_domain fl]; rfl
    · rw [certificate_secretName, resolved_certName fl hd]
      by_cases hs : fl.certName = "" <;> simp [hc, hs]

/-- C7 (amended) at the scenario with an env file and the explicit secret name
`echo-tls`. -/
theorem c7_certificate_witness :
    ((∃ r ∈ emitted oneFile exEnv, Obj.hasKind "Certificate" r = true) ↔
      (exEnv.domain ≠ "" ∧ exEnv.cert = true)) ∧
    ∃ crt : Obj,
      ofKind "Certificate" (emitted oneFile exEnv) = [crt] ∧
      Obj.path crt ["spec", "acme", "commonName"] = some (.str exEnv.domain) ∧
      Obj.path crt ["spec", "acme", "dnsNames"] = some (.strs [exEnv.domain]) ∧
      Obj.path crt ["spec", "acme", "issuerRef", "kind"] = some (.str "ClusterIssuer") ∧
      Obj.path crt ["spec", "acme", "issuerRef", "name"] = some (.str "letsencrypt") ∧
      Obj.path crt ["spec", "acme", "secretName"] =
        some (.str (if exEnv.certName ≠ "" then exEnv.certName
          else domainToName exEnv.domain)) :=
  have h := c7_certificate oneFile exEnv (by decide) (Or.inr (Or.inr rfl))
  ⟨h.1, h.2 (by decide) rfl⟩

/-! ## C8: the Deployment -/

theorem deployment_containers (fl : Flags) (env : List StrMap) :
    (deployment fl env).path ["spec", "template", "spec", "containers"] =
      some (.maps [[
        ("name", .str "app"),
        ("image", .str fl.image),
        ("env", .strMaps env)]]) :=
  rfl

/-- C8, as stated, fails when the run panics: `exLostEnv` has an image, but its env
file cannot be read and no Deployment is emitted. -/
theorem c8_refuted :
    exLostEnv.name ≠ "" ∧ exLostEnv.image ≠ "" ∧
    (main noFile exLostEnv).2 = Outcome.panicked ∧
    ¬ ∃ r ∈ emitted noFile exLostEnv, Obj.hasKind "Deployment" r = true := by
  refine ⟨by decide, by decide, rfl, ?_⟩
  have h : emitted noFile exLostEnv = [] := rfl
  simp [h]

/-- C8 (amended): for every input with a non-empty name whose env source does not
make the run panic, a Deployment is emitted if and only if the image is non-empty;
when emitted there is exactly one, it has replicas 1, a RollingUpdate strategy with
maxSurge 1 and maxUnavailable 0, and exactly one container, named `app`, whose image
is the given image and whose env list is the result of `loadEnv` on the env source;
that result is the empty list when no env source is configured. -/
theorem c8_deployment (readFile : String → Option String) (fl : Flags)
    (hn : fl.name ≠ "") (hl : envLoads readFile fl) :
    ((∃ r ∈ emitted readFile fl, Obj.hasKind "Deployment" r = true) ↔ fl.image ≠ "") ∧
    (fl.env = "" → loadEnv readFile fl.env = some []) ∧
    (fl.image ≠ "" →
      ∃ (dep ctr : Obj) (env : List StrMap),
        loadEnv readFile fl.env = some env ∧
        ofKind "Deployment" (emitted readFile fl) = [dep] ∧
        Obj.path dep ["spec", "replicas"] = some (.int 1) ∧
        Obj.path dep ["spec", "strategy", "type"] = some (.str "RollingUpdate") ∧
        Obj.path dep ["spec", "strategy", "rollingUpdate", "maxSurge"] = some (.int 1) ∧
        Obj.path dep ["spec", "strategy", "rollingUpdate", "maxUnavailable"] =
          some (.int 0) ∧
        Obj.path dep ["spec", "template", "spec", "containers"] = some (.maps [ctr]) ∧
        Obj.path ctr ["name"] = some (.str "app") ∧
        Obj.path ctr ["image"] = some (.str fl.image) ∧
        Obj.path ctr ["env"] = some (.strMaps env)) := by
  have h := loaded_of_envLoads hl
  refine ⟨?_, ?_, ?_⟩
  · rw [exists_hasKind_iff, ofKind_deployment_emitted hn h]
    by_cases hi : fl.image = "" <;> simp [hi]
  · intro hv
    simp [loadEnv, hv]
  · intro hi
    have he : loadEnv readFile fl.env = some ((loadEnv readFile fl.env).getD []) := by
      rcases h with h | h
      · exact absurd h hi
      · exact h
    refine ⟨deployment fl ((loadEnv readFile fl.env).getD []), _, _, he, ?_, rfl, rfl, rfl,
      rfl, deployment_containers _ _, rfl, rfl, rfl⟩
    rw [ofKind_deployment_emitted hn h]; simp [hi]

/-- C8 (amended) at the scenario with the env file `app.env`, whose three entries
are the container's env list, and at the scenario without an env source. -/
theorem c8_deployment_witness :
    ((∃ r ∈ emitted oneFile exEnv, Obj.hasKind "Deployment" r = true) ↔ exEnv.image ≠ "") ∧
    loadEnv noFile exFull.env = some [] ∧
    loadEnv oneFile exEnv.env =
      some [[("name", "A"), ("value", "1")], [("name", "B"), ("value", "two")],
        [("name", "C"), ("value", "")]] ∧
    ∃ (dep ctr : Obj) (env : List StrMap),
      loadEnv oneFile exEnv.env = some env ∧
      ofKind "Deployment" (emitted oneFile exEnv) = [dep] ∧
      Obj.path dep ["spec", "replicas"] = some (.int 1) ∧
      Obj.path dep ["spec", "strategy", "type"] = some (.str "RollingUpdate") ∧
      Obj.path dep ["spec", "strategy", "rollingUpdate", "maxSurge"] = some (.int 1) ∧
      Obj.path dep ["spec", "strategy", "rollingUpdate", "maxUnavailable"] =
        some (.int 0) ∧
      Obj.path dep ["spec", "template", "spec", "containers"] = some (.maps [ctr]) ∧
      Obj.path ctr ["name"] = some (.str "app") ∧
      Obj.path ctr ["image"] = some (.str exEnv.image) ∧
      Obj.path ctr ["env"] = some (.strMaps env) :=
  have h := c8_deployment oneFile exEnv (by decide) (Or.inr (Or.inr rfl))
  have h0 := c8_deployment noFile exFull (by decide) (Or.inr (Or.inl rfl))
  ⟨h.1, h0.2.1 rfl, by decide, h.2.2 (by decide)⟩

/-! ## C9: the Service -/

theorem service_ports (fl : Flags) :
    (service fl).path ["spec", "ports"] =
      some (.maps [[
        ("name", .str "http"),
        ("port", .int 80),
        ("targetPort", .int fl.port)]]) :=
  rfl

/-- C9, as stated, fails when the run panics: `exLostEnv` has port 8080, but its env
file cannot be read and no Service is emitted. -/
theorem c9_refuted :
    exLostEnv.name ≠ "" ∧ exLostEnv.port > 0 ∧
    (main noFile exLostEnv).2 = Outcome.panicked ∧
    ¬ ∃ r ∈ emitted noFile exLostEnv, Obj.hasKind "Service" r = true := by
  refine ⟨by decide, by decide, rfl, ?_⟩
  have h : emitted noFile exLostEnv = [] := rfl
  simp [h]

/-- C9 (amended): for every input with a non-empty name whose env source does not
make the run panic, a Service is emitted if and only if port > 0 (zero and negative
ports emit none); when emitted there is exactly one, it exposes exactly one port,
named `http`, whose targetPort is the given port, and its selector is exactly
{app: name}. -/
theorem c9_service (readFile : String → Option String) (fl : Flags)
    (hn : fl.name ≠ "") (hl : envLoads readFile fl) :
    ((∃ r ∈ emitted readFile fl, Obj.hasKind "Service" r = true) ↔ fl.port > 0) ∧
    (fl.port > 0 →
      ∃ svc prt : Obj,
        ofKind "Service" (emitted readFile fl) = [svc] ∧
        Obj.path svc ["spec", "ports"] = some (.maps [prt]) ∧
        Obj.path prt ["name"] = some (.str "http") ∧
        Obj.path prt ["targetPort"] = some (.int fl.port) ∧
        Obj.path svc ["spec", "selector"] = some (.strMap [("app", fl.name)])) := by
  have h := loaded_of_envLoads hl
  constructor
  · rw [exists_hasKind_iff, ofKind_service_emitted hn h]
    by_cases hp : fl.port > 0 <;> simp [hp]
  · intro hp
    refine ⟨service fl, _, ?_, service_ports fl, rfl, rfl, rfl⟩
    rw [ofKind_service_emitted hn h]; simp [hp]

/-- C9 (amended) at the end-to-end scenario, port 8080. -/
theorem c9_service_witness :
    ((∃ r ∈ emitted noFile exFull, Obj.hasKind "Service" r = true) ↔ exFull.port > 0) ∧
    ∃ svc prt : Obj,
      ofKind "Service" (emitted noFile exFull) = [svc] ∧
      Obj.path svc ["spec", "ports"] = some (.maps [prt]) ∧
      Obj.path prt ["name"] = some (.str "http") ∧
      Obj.path prt ["targetPort"] = some (.int exFull.port) ∧
      Obj.path svc ["spec", "selector"] = some (.strMap [("app", exFull.name)]) :=
  have h := c9_service noFile exFull (by decide) (Or.inr (Or.inl rfl))
  ⟨h.1, h.2 (by decide)⟩

/-! ## C10: the rule of the Ingress -/

/-- C10, as stated, fails in two ways. The path entry of the rule has no `path`
field, only `backend` (shown at `exDomainOnly`); and when the run panics
(`exLostEnv`) there is no Ingress. -/
theorem c10_refuted :
    (exDomainOnly.name ≠ "" ∧ exDomainOnly.domain ≠ "" ∧
      ∃ rule entry : Obj,
        ofKind "Ingress" (emitted noFile exDomainOnly) = [ingress exDomainOnly] ∧
        Obj.path (ingress exDomainOnly) ["spec", "rules"] = some (.maps [rule]) ∧
        Obj.path rule ["http", "paths"] = some (.maps [entry]) ∧
        Obj.path entry ["path"] = none) ∧
    (exLostEnv.name ≠ "" ∧ exLostEnv.domain ≠ "" ∧
      (main noFile exLostEnv).2 = Outcome.panicked ∧
      ofKind "Ingress" (emitted noFile exLostEnv) = []) :=
  ⟨⟨by decide, by decide, _, _, rfl, ingress_rules _, rfl, rfl⟩,
    ⟨by decide, by decide, rfl, rfl⟩⟩

/-- C10 (amended): for every input with a non-empty name and a non-empty domain
whose env source does not make the run panic, the Ingress has exactly one rule,
whose host is the domain and which has exactly one path entry; that entry has the
single field `backend` and no `path` field, and its backend is the service named
`name` on the port named `http`. -/
theorem c10_ingress_rule (readFile : String → Option String) (fl : Flags)
    (hn : fl.name ≠ "") (hd : fl.domain ≠ "") (hl : envLoads readFile fl) :
    ∃ ing rule entry : Obj,
      ofKind "Ingress" (emitted readFile fl) = [ing] ∧
      Obj.path ing ["spec", "rules"] = some (.maps [rule]) ∧
      Obj.path rule ["host"] = some (.str fl.domain) ∧
      Obj.path rule ["http", "paths"] = some (.maps [entry]) ∧
      entry.map Prod.fst = ["backend"] ∧
      Obj.path entry ["path"] = none ∧
      Obj.path entry ["backend", "serviceName"] = some (.str fl.name) ∧
      Obj.path entry ["backend", "servicePort"] = some (.str "http") := by
  have h := loaded_of_envLoads hl
  refine ⟨ingress (resolved fl), _, _, ?_, ingress_rules _, ?_, rfl, rfl, rfl, ?_, rfl⟩
  · rw [ofKind_ingress_emitted hn h]; simp [hd]
  · rw [resolved_domain]; rfl
  · rw [resolved_name]; rfl

/-- C10 (amended) at the end-to-end scenario. -/
theorem c10_ingress_rule_witness :
    ∃ ing rule entry : Obj,
      ofKind "Ingress" (emitted noFile exFull) = [ing] ∧
      Obj.path ing ["spec", "rules"] = some (.maps [rule]) ∧
      Obj.path rule ["host"] = some (.str exFull.domain) ∧
      Obj.path rule ["http", "paths"] = some (.maps [entry]) ∧
      entry.map Prod.fst = ["backend"] ∧
      Obj.path entry ["path"] = none ∧
      Obj.path entry ["backend", "serviceName"] = some (.str exFull.name) ∧
      Obj.path entry ["backend", "servicePort"] = some (.str "http") :=
  c10_ingress_rule noFile exFull (by decide) (by decide) (Or.inr (Or.inl rfl))


/-! ## C11: one secret name for the Certificate and the Ingress -/

/-- C11, as stated, fails when the run panics: `exLostEnv` has a domain and
`cert=true`, but its env file cannot be read; neither a Certificate nor an Ingress
is emitted, so there is no secret name in either. -/
theorem c11_refuted :
    exLostEnv.name ≠ "" ∧ exLostEnv.domain ≠ "" ∧ exLostEnv.cert = true ∧
    (main noFile exLostEnv).2 = Outcome.panicked ∧
    (¬ ∃ r ∈ emitted noFile exLostEnv, Obj.hasKind "Certificate" r = true) ∧
    (¬ ∃ r ∈ emitted noFile exLostEnv, Obj.hasKind "Ingress" r = true) := by
  have h : emitted noFile exLostEnv = [] := rfl
  refine ⟨by decide, by decide, rfl, rfl, ?_, ?_⟩ <;> simp [h]

/-- C11 (amended): for every input with a non-empty name, a non-empty domain and
`cert=true`, with any cert-name, whose env source does not make the run panic, the
Certificate's secretName and the secretName of the Ingress's tls entry are the same
non-empty string, the tls list has exactly one entry, and the redirect-https
annotation is `"true"`. -/
theorem c11_same_secret_name (readFile : String → Option String) (fl : Flags)
    (hn : fl.name ≠ "") (hd : fl.domain ≠ "") (hc : fl.cert = true)
    (hl : envLoads readFile fl) :
    ∃ (crt ing : Obj) (secret : String),
      secret ≠ "" ∧
      ofKind "Certificate" (emitted readFile fl) = [crt] ∧
      ofKind "Ingress" (emitted readFile fl) = [ing] ∧
      Obj.path crt ["spec", "acme", "secretName"] = some (.str secret) ∧
      Obj.path ing ["spec", "tls"] = some (.maps [[("secretName", .str secret)]]) ∧
      Obj.path ing ["metadata", "annotations", "parapet.moonrhythm.io/redirect-https"] =
        some (.str "true") := by
  have h := loaded_of_envLoads hl
  have hne : (resolved fl).certName ≠ "" := by
    rw [resolved_certName fl hd]
    by_cases hs : fl.certName = ""
    · simp [hc, hs, domainToName_ne_empty fl.domain hd]
    · simp [hs]
  refine ⟨certificate (resolved fl), ingress (resolved fl), (resolved fl).certName, hne,
    ?_, ?_, certificate_secretName _, ?_, ?_⟩
  · rw [ofKind_certificate_emitted hn h]; simp [hd, hc]
  · rw [ofKind_ingress_emitted hn h]; simp [hd]
  · rw [ingress_tls, if_neg hne]
  · rw [ingress_redirect, if_neg hne]

/-- C11 (amended) at the end-to-end scenario (derived name) and at the scenario with
the explicit name `echo-tls`. -/
theorem c11_same_secret_name_witness :
    (∃ (crt ing : Obj) (secret : String),
      secret ≠ "" ∧
      ofKind "Certificate" (emitted noFile exFull) = [crt] ∧
      ofKind "Ingress" (emitted noFile exFull) = [ing] ∧
      Obj.path crt ["spec", "acme", "secretName"] = some (.str secret) ∧
      Obj.path ing ["spec", "tls"] = some (.maps [[("secretName", .str secret)]]) ∧
      Obj.path ing ["metadata", "annotations", "parapet.moonrhythm.io/redirect-https"] =
        some (.str "true")) ∧
    (∃ (crt ing : Obj) (secret : String),
      secret ≠ "" ∧
      ofKind "Certificate" (emitted oneFile exEnv) = [crt] ∧
      ofKind "Ingress" (emitted oneFile exEnv) = [ing] ∧
      Obj.path crt ["spec", "acme", "secretName"] = some (.str secret) ∧
      Obj.path ing ["spec", "tls"] = some (.maps [[("secretName", .str secret)]]) ∧
      Obj.path ing ["metadata", "annotations", "parapet.moonrhythm.io/redirect-https"] =
        some (.str "true")) :=
  ⟨c11_same_secret_name noFile exFull (by decide) (by decide) rfl (Or.inr (Or.inl rfl)),
   c11_same_secret_name oneFile exEnv (by decide) (by decide) rfl (Or.inr (Or.inr rfl))⟩

/-! ## C12: selector and pod-template labels of the Deployment -/

/-- C12, as stated, fails when the run panics: `exLostEnv` has an image, but its env
file cannot be read and there is no Deployment. -/
theorem c12_refuted :
    exLostEnv.name ≠ "" ∧ exLostEnv.image ≠ "" ∧
    (main noFile exLostEnv).2 = Outcome.panicked ∧
    ofKind "Deployment" (emitted noFile exLostEnv) = [] :=
  ⟨by decide, by decide, rfl, rfl⟩

/-- C12 (amended): for every input with a non-empty name and a non-empty image whose
env source does not make the run panic, the Deployment's spec.selector.matchLabels
and the metadata.labels of its pod template are equal, both being exactly the
single-entry map {app: name}. -/
theorem c12_selector_matches_template (readFile : String → Option String) (fl : Flags)
    (hn : fl.name ≠ "") (hi : fl.image ≠ "") (hl : envLoads readFile fl) :
    ∃ dep : Obj,
      ofKind "Deployment" (emitted readFile fl) = [dep] ∧
      Obj.path dep ["spec", "selector", "matchLabels"] =
        some (.strMap [("app", fl.name)]) ∧
      Obj.path dep ["spec", "template", "metadata", "labels"] =
        some (.strMap [("app", fl.name)]) ∧
      Obj.path dep ["spec", "selector", "matchLabels"] =
        Obj.path dep ["spec", "template", "metadata", "labels"] := by
  have h := loaded_of_envLoads hl
  refine ⟨deployment fl ((loadEnv readFile fl.env).getD []), ?_, rfl, rfl, rfl⟩
  rw [ofKind_deployment_emitted hn h]; simp [hi]

/-- C12 (amended) at the scenario with the env file `app.env`. -/
theorem c12_selector_matches_template_witness :
    ∃ dep : Obj,
      ofKind "Deployment" (emitted oneFile exEnv) = [dep] ∧
      Obj.path dep ["spec", "selector", "matchLabels"] =
        some (.strMap [("app", exEnv.name)]) ∧
      Obj.path dep ["spec", "template", "metadata", "labels"] =
        some (.strMap [("app", exEnv.name)]) ∧
      Obj.path dep ["spec", "selector", "matchLabels"] =
        Obj.path dep ["spec", "template", "metadata", "labels"] :=
  c12_selector_matches_template oneFile exEnv (by decide) (by decide) (Or.inr (Or.inr rfl))


/-! ## C13: references between the resources -/

/-- An emitted resource of kind `k` is one of the emitted resources of that kind. -/
theorem mem_ofKind {k : String} {r : Obj} {rs : List Obj}
    (hr : r ∈ rs) (hk : Obj.hasKind k r = true) : r ∈ ofKind k rs :=
  List.mem_filter.mpr ⟨hr, hk⟩

theorem service_of_emitted {readFile : String → Option String} {fl : Flags}
    (hn : fl.name ≠ "") {r : Obj} (hr : r ∈ emitted readFile fl)
    (hk : Obj.hasKind "Service" r = true) : r = service fl := by
  rcases emitted_cases readFile fl hn with h | h
  · rw [h] at hr; simp at hr
  · have hm := mem_ofKind hr hk
    rw [ofKind_service_emitted hn h] at hm
    by_cases hp : fl.port > 0 <;> simp [hp] at hm
    exact hm

theorem deployment_of_emitted {readFile : String → Option String} {fl : Flags}
    (hn : fl.name ≠ "") {r : Obj} (hr : r ∈ emitted readFile fl)
    (hk : Obj.hasKind "Deployment" r = true) :
    r = deployment fl ((loadEnv readFile fl.env).getD []) := by
  rcases emitted_cases readFile fl hn with h | h
  · rw [h] at hr; simp at hr
  · have hm := mem_ofKind hr hk
    rw [ofKind_deployment_emitted hn h] at hm
    by_cases hi : fl.image = "" <;> simp [hi] at hm
    exact hm

theorem certificate_of_emitted {readFile : String → Option String} {fl : Flags}
    (hn : fl.name ≠ "") {r : Obj} (hr : r ∈ emitted readFile fl)
    (hk : Obj.hasKind "Certificate" r = true) : r = certificate (resolved fl) := by
  rcases emitted_cases readFile fl hn with h | h
  · rw [h] at hr; simp at hr
  · have hm := mem_ofKind hr hk
    rw [ofKind_certificate_emitted hn h] at hm
    by_cases hd : fl.domain ≠ "" ∧ fl.cert = true
    · rw [if_pos hd] at hm; simpa using hm
    · rw [if_neg hd] at hm; simp at hm

theorem ingress_of_emitted {readFile : String → Option String} {fl : Flags}
    (hn : fl.name ≠ "") {r : Obj} (hr : r ∈ emitted readFile fl)
    (hk : Obj.hasKind "Ingress" r = true) : r = ingress (resolved fl) := by
  rcases emitted_cases readFile fl hn with h | h
  · rw [h] at hr; simp at hr
  · have hm := mem_ofKind hr hk
    rw [ofKind_ingress_emitted hn h] at hm
    by_cases hd : fl.domain = "" <;> simp [hd] at hm
    exact hm

/-- C13: for every input with a non-empty name, whenever a Service and a Deployment
are both emitted the Service's selector equals the labels of the Deployment's pod
template, and whenever a Service and an Ingress are both emitted the serviceName of
the Ingress backend equals the Service's metadata.name and the servicePort of the
backend equals the name of the Service's single port. -/
theorem c13_cross_references (readFile : String → Option String) (fl : Flags)
    (hn : fl.name ≠ "") :
    (∀ svc dep : Obj,
      svc ∈ emitted readFile fl → Obj.hasKind "Service" svc = true →
      dep ∈ emitted readFile fl → Obj.hasKind "Deployment" dep = true →
      Obj.path svc ["spec", "selector"] = some (.strMap [("app", fl.name)]) ∧
      Obj.path svc ["spec", "selector"] =
        Obj.path dep ["spec", "template", "metadata", "labels"]) ∧
    (∀ svc ing : Obj,
      svc ∈ emitted readFile fl → Obj.hasKind "Service" svc = true →
      ing ∈ emitted readFile fl → Obj.hasKind "Ingress" ing = true →
      ∃ prt rule entry : Obj,
        Obj.path svc ["spec", "ports"] = some (.maps [prt]) ∧
        Obj.path ing ["spec", "rules"] = some (.maps [rule]) ∧
        Obj.path rule ["http", "paths"] = some (.maps [entry]) ∧
        Obj.path svc ["metadata", "name"] = some (.str fl.name) ∧
        Obj.path entry ["backend", "serviceName"] = Obj.path svc ["metadata", "name"] ∧
        Obj.path prt ["name"] = some (.str "http") ∧
        Obj.path entry ["backend", "servicePort"] = Obj.path prt ["name"]) := by
  constructor
  · intro svc dep hs hsk hd hdk
    rw [service_of_emitted hn hs hsk, deployment_of_emitted hn hd hdk]
    exact ⟨rfl, rfl⟩
  · intro svc ing hs hsk hi hik
    rw [service_of_emitted hn hs hsk, ingress_of_emitted hn hi hik]
    refine ⟨_, _, _, service_ports fl, ingress_rules _, rfl, rfl, ?_, rfl, rfl⟩
    rw [resolved_name]; rfl

/-- C13 at the end-to-end scenario, for its Service, its Deployment and its
Ingress. -/
theorem c13_cross_references_witness :
    (Obj.path (service exFull) ["spec", "selector"] = some (.strMap [("app", "echo")]) ∧
      Obj.path (service exFull) ["spec", "selector"] =
        Obj.path (deployment exFull []) ["spec", "template", "metadata", "labels"]) ∧
    ∃ prt rule entry : Obj,
      Obj.path (service exFull) ["spec", "ports"] = some (.maps [prt]) ∧
      Obj.path (ingress (resolved exFull)) ["spec", "rules"] = some (.maps [rule]) ∧
      Obj.path rule ["http", "paths"] = some (.maps [entry]) ∧
      Obj.path (service exFull) ["metadata", "name"] = some (.str "echo") ∧
      Obj.path entry ["backend", "serviceName"] =
        Obj.path (service exFull) ["metadata", "name"] ∧
      Obj.path prt ["name"] = some (.str "http") ∧
      Obj.path entry ["backend", "servicePort"] = Obj.path prt ["name"] :=
  have he : emitted noFile exFull =
      [deployment exFull [], service exFull, certificate (resolved exFull),
        ingress (resolved exFull)] := rfl
  have h := c13_cross_references noFile exFull (by decide)
  ⟨h.1 (service exFull) (deployment exFull []) (by rw [he]; simp) rfl (by rw [he]; simp) rfl,
   h.2 (service exFull) (ingress (resolved exFull)) (by rw [he]; simp) rfl
     (by rw [he]; simp) rfl⟩

/-! ## C14: name and labels of every resource -/

/-- C14: for every input with a non-empty name, every emitted resource, of whatever
kind, has metadata.name equal to the name and metadata.labels equal to exactly
{app: name}. -/
theorem c14_name_and_labels (readFile : String → Option String) (fl : Flags)
    (hn : fl.name ≠ "") :
    ∀ r ∈ emitted readFile fl,
      Obj.path r ["metadata", "name"] = some (.str fl.name) ∧
      Obj.path r ["metadata", "labels"] = some (.strMap [("app", fl.name)]) := by
  intro r hr
  have hc : Obj.path (certificate (resolved fl)) ["metadata", "name"] = some (.str fl.name) ∧
      Obj.path (certificate (resolved fl)) ["metadata", "labels"] =
        some (.strMap [("app", fl.name)]) := by
    rw [← resolved_name fl]; exact ⟨rfl, rfl⟩
  have hg : Obj.path (ingress (resolved fl)) ["metadata", "name"] = some (.str fl.name) ∧
      Obj.path (ingress (resolved fl)) ["metadata", "labels"] =
        some (.strMap [("app", fl.name)]) := by
    rw [← resolved_name fl]; exact ⟨rfl, rfl⟩
  rcases emitted_cases readFile fl hn with h | h
  · rw [h] at hr; simp at hr
  · rw [emitted_of_loaded hn h] at hr
    simp only [List.mem_append] at hr
    rcases hr with (hr | hr) | hr
    · by_cases hi : fl.image = "" <;> simp [hi] at hr
      subst hr; exact ⟨rfl, rfl⟩
    · by_cases hp : fl.port > 0 <;> simp [hp] at hr
      subst hr; exact ⟨rfl, rfl⟩
    · by_cases hd : fl.domain = "" <;> simp [hd] at hr
      rcases hr with hr | hr
      · rw [hr.2]; exact hc
      · rw [hr]; exact hg

/-- C14 at the end-to-end scenario, for each of its four resources. -/
theorem c14_name_and_labels_witness :
    emitted noFile exFull =
      [deployment exFull [], service exFull, certificate (resolved exFull),
        ingress (resolved exFull)] ∧
    (Obj.path (deployment exFull []) ["metadata", "name"] = some (.str "echo") ∧
      Obj.path (deployment exFull []) ["metadata", "labels"] =
        some (.strMap [("app", "echo")])) ∧
    (Obj.path (service exFull) ["metadata", "name"] = some (.str "echo") ∧
      Obj.path (service exFull) ["metadata", "labels"] =
        some (.strMap [("app", "echo")])) ∧
    (Obj.path (certificate (resolved exFull)) ["metadata", "name"] = some (.str "echo") ∧
      Obj.path (certificate (resolved exFull)) ["metadata", "labels"] =
        some (.strMap [("app", "echo")])) ∧
    (Obj.path (ingress (resolved exFull)) ["metadata", "name"] = some (.str "echo") ∧
      Obj.path (ingress (resolved exFull)) ["metadata", "labels"] =
        some (.strMap [("app", "echo")])) :=
  have he : emitted noFile exFull =
      [deployment exFull [], service exFull, certificate (resolved exFull),
        ingress (resolved exFull)] := rfl
  have h := c14_name_and_labels noFile exFull (by decide)
  ⟨he, h _ (by rw [he]; simp), h _ (by rw [he]; simp), h _ (by rw [he]; simp),
    h _ (by rw [he]; simp)⟩

/-! ## C15: no name -/

/-- C15: when the name is empty, for every value of the other parameters and every
state of the file system, the run prints the usage text and returns: no resource is
composed, nothing is written to standard output, the run does not panic, and the
env source is not read (the run is the same when no file can be read). -/
theorem c15_no_name (readFile : String → Option String) (fl : Flags)
    (hn : fl.name = "") :
    main readFile fl = (fl, Outcome.usage) ∧
    (main readFile fl).2.stdout = none ∧
    emitted readFile fl = [] ∧
    (main readFile fl).2 ≠ Outcome.panicked ∧
    main readFile fl = main noFile fl := by
  have h : ∀ rf, main rf fl = (fl, Outcome.usage) := by
    intro rf; unfold main; rw [if_pos hn]
  unfold emitted
  rw [h readFile, h noFile]
  exact ⟨rfl, rfl, rfl, fun hp => Outcome.noConfusion hp, rfl⟩

/-- C15 at an input with every flag but the name and an env file that cannot be
read. -/
theorem c15_no_name_witness :
    main noFile exNoName = (exNoName, Outcome.usage) ∧
    (main noFile exNoName).2.stdout = none ∧
    emitted noFile exNoName = [] ∧
    (main noFile exNoName).2 ≠ Outcome.panicked ∧
    main oneFile exNoName = main noFile exNoName :=
  have h := c15_no_name noFile exNoName rfl
  ⟨h.1, h.2.1, h.2.2.1, h.2.2.2.1, (c15_no_name oneFile exNoName rfl).2.2.2.2⟩


/-! ## C16: composing twice -/

/-- A run depends on the file system only through what the env source holds. -/
theorem main_readFile_congr {readFile readFile2 : String → Option String} {fl : Flags}
    (h : readFile2 fl.env = readFile fl.env) : main readFile2 fl = main readFile fl := by
  simp only [main, imageBlock, loadEnv, h]

theorem resolved_eq (fl : Flags) :
    resolved fl =
      if fl.domain ≠ "" ∧ fl.cert = true ∧ fl.certName = "" then
        { fl with certName := domainToName fl.domain }
      else fl := by
  unfold resolved domainBlock
  by_cases hd : fl.domain = "" <;> cases hc : fl.cert <;> by_cases hs : fl.certName = "" <;>
    simp [hd, hc, hs]

theorem domainBlock_fst (fl : Flags) (rs : List Obj) :
    (domainBlock fl rs).1 = resolved fl := by
  unfold resolved domainBlock
  by_cases hd : fl.domain = "" <;> cases hc : fl.cert <;> by_cases hs : fl.certName = "" <;>
    simp [hd, hc, hs]

/-- A run with a name, block by block. -/
theorem main_eq (readFile : String → Option String) (fl : Flags) (hn : fl.name ≠ "") :
    main readFile fl =
      match imageBlock readFile fl [] with
      | none => (fl, Outcome.panicked)
      | some rs =>
        ((domainBlock fl (portBlock fl rs)).1,
          Outcome.encoded (.map [
            ("apiVersion", .str "v1"),
            ("kind", .str "List"),
            ("items", .maps (domainBlock fl (portBlock fl rs)).2)])) := by
  unfold main
  rw [if_neg hn]

/-- The flags a run leaves behind: those of the domain block when the document is
encoded, the given ones otherwise. -/
theorem main_flags (readFile : String → Option String) (fl : Flags) :
    (main readFile fl).1 = fl ∨
    (fl.name ≠ "" ∧ (∃ doc, (main readFile fl).2 = Outcome.encoded doc) ∧
      (main readFile fl).1 = resolved fl) := by
  by_cases hn : fl.name = ""
  · left; unfold main; rw [if_pos hn]
  · rw [main_eq readFile fl hn]
    cases hi : imageBlock readFile fl [] with
    | none => left; rfl
    | some rs => right; exact ⟨hn, ⟨_, rfl⟩, domainBlock_fst fl _⟩

/-- A second run over the flags the domain block left gives the same run. -/
theorem main_resolved (readFile : String → Option String) (fl : Flags)
    (hn : fl.name ≠ "") (rs : List Obj) (hi : imageBlock readFile fl [] = some rs) :
    main readFile (resolved fl) = main readFile fl := by
  rw [resolved_eq]
  by_cases hc : fl.domain ≠ "" ∧ fl.cert = true ∧ fl.certName = ""
  · rw [if_pos hc]
    obtain ⟨hd, hc, hs⟩ := hc
    have hD := domainToName_ne_empty fl.domain hd
    have hi2 : imageBlock readFile { fl with certName := domainToName fl.domain } [] =
        some rs := by
      rw [← hi]; rfl
    rw [main_eq readFile fl hn,
      main_eq readFile { fl with certName := domainToName fl.domain } hn, hi, hi2]
    simp [domainBlock, portBlock, hd, hc, hs, hD]
    rfl
  · rw [if_neg hc]

/-- C16: composing twice from an identical input, the file the env source names
holding the same content, gives the identical run, hence the same resources in the
same order with the same field values; and so does a second composition over the
flag variables as the first one left them (an empty cert-name overwritten with the
derived name). -/
theorem c16_compose_twice (readFile readFile2 : String → Option String) (fl : Flags)
    (h : readFile2 fl.env = readFile fl.env) :
    main readFile2 fl = main readFile fl ∧
    main readFile2 (main readFile fl).1 = main readFile fl ∧
    emitted readFile2 (main readFile fl).1 = emitted readFile fl := by
  have h2 : main readFile2 (main readFile fl).1 = main readFile fl := by
    rcases main_flags readFile fl with hf | ⟨hn, ⟨doc, hdoc⟩, hf⟩
    · rw [hf]; exact main_readFile_congr h
    · rw [hf]
      have he : (resolved fl).env = fl.env := by
        rw [resolved_eq]; split <;> rfl
      rw [main_readFile_congr (show readFile2 (resolved fl).env = readFile (resolved fl).env by
        rw [he]; exact h)]
      cases hi : imageBlock readFile fl [] with
      | none =>
        rw [main_eq readFile fl hn, hi] at hdoc
        exact Outcome.noConfusion hdoc
      | some rs => exact main_resolved readFile fl hn rs hi
  refine ⟨main_readFile_congr h, h2, ?_⟩
  unfold emitted
  rw [h2]

/-- C16 at the end-to-end scenario, whose first run overwrites the empty cert-name
with `echo-example-com`, under two file systems that agree on the env source. -/
theorem c16_compose_twice_witness :
    exFull.certName = "" ∧ (main noFile exFull).1.certName = "echo-example-com" ∧
    main oneFile exFull = main noFile exFull ∧
    main oneFile (main noFile exFull).1 = main noFile exFull ∧
    emitted oneFile (main noFile exFull).1 = emitted noFile exFull :=
  have h := c16_compose_twice noFile oneFile exFull rfl
  ⟨rfl, by decide, h.1, h.2.1, h.2.2⟩

/-! ## C17: nothing to load -/

/-- C17: on an empty source `loadEnv` returns the empty list whatever the file
system holds, without reading (the result is the same when no file can be read) and
without failing; and on a file that is read with empty content it returns the empty
list. -/
theorem c17_nothing_to_load (readFile : String → Option String) :
    loadEnv readFile "" = some [] ∧
    loadEnv readFile "" = loadEnv noFile "" ∧
    (∀ filename, readFile filename = some "" → loadEnv readFile filename = some []) := by
  refine ⟨rfl, rfl, ?_⟩
  intro filename hr
  unfold loadEnv
  by_cases hf : filename = ""
  · rw [if_pos hf]
  · rw [if_neg hf, hr]
    rfl

/-- C17 at a file system with one file, with the empty source and with the empty
file. -/
theorem c17_nothing_to_load_witness :
    loadEnv oneFile "" = some [] ∧
    emptyFile "empty.env" = some "" ∧
    loadEnv emptyFile "empty.env" = some [] :=
  ⟨(c17_nothing_to_load oneFile).1, rfl,
    (c17_nothing_to_load emptyFile).2.2 "empty.env" rfl⟩

/-! ## C18: the annotation and the tls list follow the secret name in effect -/

/-- The flags left by a run that does not panic. -/
theorem main_flags_of_loaded {readFile : String → Option String} {fl : Flags}
    {env : List StrMap} (hn : fl.name ≠ "")
    (h : fl.image = "" ∨ loadEnv readFile fl.env = some env) :
    (main readFile fl).1 = resolved fl := by
  rw [main_eq readFile fl hn]
  rcases h with h | h
  · simp only [imageBlock, h]
    exact domainBlock_fst fl _
  · by_cases hi : fl.image = ""
    · simp only [imageBlock, hi]
      exact domainBlock_fst fl _
    · simp only [imageBlock, h]
      rw [if_pos (by simpa using hi)]
      exact domainBlock_fst fl _

/-- C18, as stated, fails when the run panics: `exLostEnv` has a domain, but its env
file cannot be read and there is no Ingress to carry an annotation or a tls list. -/
theorem c18_refuted :
    exLostEnv.name ≠ "" ∧ exLostEnv.domain ≠ "" ∧
    (main noFile exLostEnv).2 = Outcome.panicked ∧
    (main noFile exLostEnv).2.stdout = none ∧
    ofKind "Ingress" (emitted noFile exLostEnv) = [] :=
  ⟨by decide, by decide, rfl, rfl, rfl⟩

/-- C18 (amended): for every input with a non-empty name and a non-empty domain
whose env source does not make the run panic, there is exactly one Ingress, and it
follows the secret name in effect, the cert-name as the run leaves it: when that
name is non-empty the redirect-https annotation is `"true"` and tls is the one-entry
list with that secretName; when it is empty the annotation is `"false"` and tls is
present as the empty list. -/
theorem c18_ingress_follows_secret (readFile : String → Option String) (fl : Flags)
    (hn : fl.name ≠ "") (hd : fl.domain ≠ "") (hl : envLoads readFile fl) :
    ∃ ing : Obj,
      ofKind "Ingress" (emitted readFile fl) = [ing] ∧
      ((main readFile fl).1.certName ≠ "" →
        Obj.path ing ["metadata", "annotations", "parapet.moonrhythm.io/redirect-https"] =
          some (.str "true") ∧
        Obj.path ing ["spec", "tls"] =
          some (.maps [[("secretName", .str (main readFile fl).1.certName)]])) ∧
      ((main readFile fl).1.certName = "" →
        Obj.path ing ["metadata", "annotations", "parapet.moonrhythm.io/redirect-https"] =
          some (.str "false") ∧
        Obj.path ing ["spec", "tls"] = some (.maps [])) := by
  have h := loaded_of_envLoads hl
  rw [main_flags_of_loaded hn h]
  refine ⟨ingress (resolved fl), ?_, ?_, ?_⟩
  · rw [ofKind_ingress_emitted hn h]; simp [hd]
  · intro hs
    rw [ingress_redirect, ingress_tls, if_neg hs, if_neg hs]
    exact ⟨rfl, rfl⟩
  · intro hs
    rw [ingress_redirect, ingress_tls, if_pos hs, if_pos hs]
    exact ⟨rfl, rfl⟩

/-- C18 (amended) at the end-to-end scenario, where the name in effect is the
derived `echo-example-com`, and at the name-and-domain scenario, where it is
empty. -/
theorem c18_ingress_follows_secret_witness :
    ((main noFile exFull).1.certName = "echo-example-com" ∧
      ∃ ing : Obj,
        ofKind "Ingress" (emitted noFile exFull) = [ing] ∧
        Obj.path ing ["metadata", "annotations", "parapet.moonrhythm.io/redirect-https"] =
          some (.str "true") ∧
        Obj.path ing ["spec", "tls"] =
          some (.maps [[("secretName", .str (main noFile exFull).1.certName)]])) ∧
    ((main noFile exDomainOnly).1.certName = "" ∧
      ∃ ing : Obj,
        ofKind "Ingress" (emitted noFile exDomainOnly) = [ing] ∧
        Obj.path ing ["metadata", "annotations", "parapet.moonrhythm.io/redirect-https"] =
          some (.str "false") ∧
        Obj.path ing ["spec", "tls"] = some (.maps [])) :=
  ⟨⟨by decide,
      (c18_ingress_follows_secret noFile exFull (by decide) (by decide)
        (Or.inr (Or.inl rfl))).elim
        fun ing h => ⟨ing, h.1, h.2.1 (by decide)⟩⟩,
    ⟨by decide,
      (c18_ingress_follows_secret noFile exDomainOnly (by decide) (by decide)
        (Or.inl rfl)).elim
        fun ing h => ⟨ing, h.1, h.2.2 (by decide)⟩⟩⟩


/-! ## C19: shape of the entries of an env file -/

/-- The characters of a trimmed string are, in order, characters of the string. -/
theorem TrimSpace_sublist (s : String) : List.Sublist (TrimSpace s).data s.data := by
  have h1 : List.Sublist (TrimSpace s).data (s.data.dropWhile isSpace) :=
    (List.rdropWhile_prefix isSpace (s.data.dropWhile isSpace)).sublist
  exact h1.trans (List.dropWhile_sublist isSpace)

/-- A trimmed string neither starts nor ends with white space. -/
theorem TrimSpace_noOuterSpace (s : String) : noOuterSpace (TrimSpace s) := by
  have hd : (TrimSpace s).data = (s.data.dropWhile isSpace).rdropWhile isSpace := rfl
  constructor
  · intro c hc
    rw [hd] at hc
    obtain ⟨z, hz⟩ := List.rdropWhile_prefix isSpace (s.data.dropWhile isSpace)
    cases ht : (s.data.dropWhile isSpace).rdropWhile isSpace with
    | nil => rw [ht] at hc; simp at hc
    | cons a r =>
      rw [ht] at hc hz
      simp only [List.head?_cons, Option.some.injEq] at hc
      subst hc
      have h := List.head?_dropWhile_not isSpace s.data
      rw [← hz] at h
      simpa using h
  · intro c hc
    rw [hd] at hc
    have hne : (s.data.dropWhile isSpace).rdropWhile isSpace ≠ [] := by
      intro h0; rw [h0] at hc; simp at hc
    rw [List.getLast?_eq_getLast _ hne, Option.some.injEq] at hc
    have h := List.rdropWhile_last_not isSpace (s.data.dropWhile isSpace) hne
    rw [hc] at h
    simpa using h

/-- No piece of a split holds a separator. -/
theorem not_mem_of_mem_splitOn (a : Char) (s l : List Char) (hl : l ∈ s.splitOn a) :
    a ∉ l := by
  induction s generalizing l with
  | nil =>
    rw [List.splitOn_nil] at hl
    simp at hl
    subst hl
    simp
  | cons c cs ih =>
    rw [List.splitOn, List.splitOnP_cons] at hl
    by_cases hc : c = a
    · simp only [hc, beq_self_eq_true, if_true, List.mem_cons] at hl
      rcases hl with hl | hl
      · subst hl; simp
      · exact ih l hl
    · have hb : (c == a) = false := by simp [hc]
      simp only [hb] at hl
      cases hs : List.splitOnP (fun x => x == a) cs with
      | nil => rw [hs] at hl; simp at hl
      | cons h t =>
        have ih2 : ∀ l2, l2 ∈ h :: t → a ∉ l2 := by
          intro l2 h2
          apply ih
          rw [List.splitOn, hs]
          exact h2
        rw [hs] at hl
        simp only [List.modifyHead_cons, List.mem_cons, Bool.false_eq_true, if_false] at hl
        rcases hl with hl | hl
        · subst hl
          intro hm
          rcases List.mem_cons.mp hm with hm | hm
          · exact hc hm.symm
          · exact ih2 h (List.mem_cons_self _ _) hm
        · exact ih2 l (List.mem_cons_of_mem _ hl)

theorem specKey_sublist (l : List Char) : List.Sublist (specKey l) l :=
  (List.takeWhile_prefix _).sublist

theorem specValue_sublist (l : List Char) : List.Sublist (specValue l) l :=
  (List.drop_sublist 1 _).trans (List.dropWhile_sublist _)

theorem not_mem_specKey (l : List Char) : '=' ∉ specKey l := by
  intro hm
  have h := List.mem_takeWhile_imp hm
  simp at h

/-- What `loadEnv` returns for a file that is read. -/
theorem loadEnv_read (readFile : String → Option String) (filename content : String)
    (hf : filename ≠ "") (hr : readFile filename = some content) :
    loadEnv readFile filename = some (specEntries (content.data.splitOn '\n')) := by
  unfold loadEnv
  simp only [hf, if_false, hr]
  by_cases hc : content.length = 0
  · have he : content = "" := String.ext (List.length_eq_zero.mp hc)
    subst he
    rfl
  · rw [if_neg hc]
    have hs : Split content "\n" = (content.data.splitOn '\n').map String.mk := by
      unfold Split
      have hd : ("\n" : String).data = ['\n'] := rfl
      rw [hd, genSplit_single '\n' content.length content.data (Nat.le_refl _)]
    simp only [hs, foldl_loadEnvStep, List.nil_append]

/-- Every specified entry comes from a line with `=` whose trimmed key is not
empty. -/
theorem mem_specEntries (lines : List (List Char)) (e : StrMap) (he : e ∈ specEntries lines) :
    ∃ l ∈ lines, TrimSpace ⟨specKey l⟩ ≠ "" ∧
      e = [("name", TrimSpace ⟨specKey l⟩), ("value", TrimSpace ⟨specValue l⟩)] := by
  simp only [specEntries, List.mem_map, List.mem_filter, decide_eq_true_eq] at he
  obtain ⟨kv, ⟨⟨l, ⟨hl, _⟩, hkv⟩, hne⟩, hee⟩ := he
  subst hkv
  exact ⟨l, hl, hne, hee.symm⟩

theorem length_specEntries_le (lines : List (List Char)) :
    (specEntries lines).length ≤ lines.length := by
  simp only [specEntries, List.length_map]
  exact (List.length_filter_le _ _).trans
    (by rw [List.length_map]; exact List.length_filter_le _ _)

/-- C19: for every file content, every entry `loadEnv` returns has a name that is
non-empty, has no leading or trailing white space and contains neither `=` nor a
newline, and a value that has no leading or trailing white space and contains no
newline; and there are at most as many entries as the content has lines. -/
theorem c19_entry_shape (readFile : String → Option String) (filename content : String)
    (hf : filename ≠ "") (hr : readFile filename = some content) :
    ∃ xs : List StrMap,
      loadEnv readFile filename = some xs ∧
      xs.length ≤ (content.data.splitOn '\n').length ∧
      ∀ e ∈ xs, ∃ n v : String,
        e = [("name", n), ("value", v)] ∧
        n ≠ "" ∧ noOuterSpace n ∧ '=' ∉ n.data ∧ '\n' ∉ n.data ∧
        noOuterSpace v ∧ '\n' ∉ v.data := by
  refine ⟨_, loadEnv_read readFile filename content hf hr, length_specEntries_le _, ?_⟩
  intro e he
  obtain ⟨l, hl, hne, hee⟩ := mem_specEntries _ e he
  have hnl := not_mem_of_mem_splitOn '\n' content.data l hl
  refine ⟨_, _, hee, hne, TrimSpace_noOuterSpace _, ?_, ?_, TrimSpace_noOuterSpace _, ?_⟩
  · intro hm
    exact not_mem_specKey l ((TrimSpace_sublist ⟨specKey l⟩).subset hm)
  · intro hm
    exact hnl ((specKey_sublist l).subset ((TrimSpace_sublist ⟨specKey l⟩).subset hm))
  · intro hm
    exact hnl ((specValue_sublist l).subset ((TrimSpace_sublist ⟨specValue l⟩).subset hm))

/-- C19 at the file `app.env`: six pieces between newlines, three entries, and the
stated shape for the entry of the line `B = two `. -/
theorem c19_entry_shape_witness :
    loadEnv oneFile "app.env" =
      some [[("name", "A"), ("value", "1")], [("name", "B"), ("value", "two")],
        [("name", "C"), ("value", "")]] ∧
    (("A=1\nB = two \n\nbad-line\nC=\n" : String).data.splitOn '\n').length = 6 ∧
    ∃ n v : String,
      ([("name", "B"), ("value", "two")] : StrMap) = [("name", n), ("value", v)] ∧
      n ≠ "" ∧ noOuterSpace n ∧ '=' ∉ n.data ∧ '\n' ∉ n.data ∧
      noOuterSpace v ∧ '\n' ∉ v.data := by
  obtain ⟨xs, hx, _, hall⟩ := c19_entry_shape oneFile "app.env" _ (by decide) rfl
  have hv : loadEnv oneFile "app.env" =
      some [[("name", "A"), ("value", "1")], [("name", "B"), ("value", "two")],
        [("name", "C"), ("value", "")]] := by decide
  rw [hv] at hx
  injection hx with hx
  subst hx
  exact ⟨hv, by decide, hall _ (by simp)⟩


/-! ## C20: the derived name, character by character -/

/-- The characters `.` and `-` take one byte each, so the replacement keeps the byte
length of the text. -/
theorem utf8ByteSize_go_map_dot (l : List Char) :
    String.utf8ByteSize.go (l.map (fun c => if c = '.' then '-' else c)) =
      String.utf8ByteSize.go l := by
  induction l with
  | nil => rfl
  | cons c cs ih =>
    by_cases hc : c = '.'
    · subst hc
      simp only [List.map_cons, String.utf8ByteSize.go, ih, if_true]
      rfl
    · simp only [List.map_cons, String.utf8ByteSize.go, ih, if_neg hc]

/-- C20: for every string `d`, `domainToName d` has the length of `d` (in characters
and in bytes), contains no `.`, agrees with `d` at every position where `d` is not
`.`, and has `-` at every position where `d` is `.`; hence `domainToName` is
idempotent, maps a non-empty domain to a non-empty name, and is not injective: `a.b`
and `a-b` derive the same name. -/
theorem c20_domainToName_pointwise (d : String) :
    (domainToName d).length = d.length ∧
    (domainToName d).utf8ByteSize = d.utf8ByteSize ∧
    '.' ∉ (domainToName d).data ∧
    (∀ (i : Nat) (c : Char), d.data[i]? = some c →
      (c ≠ '.' → (domainToName d).data[i]? = some c) ∧
      (c = '.' → (domainToName d).data[i]? = some '-')) ∧
    domainToName (domainToName d) = domainToName d ∧
    (d ≠ "" → domainToName d ≠ "") ∧
    (domainToName "a.b" = domainToName "a-b" ∧ "a.b" ≠ "a-b") := by
  have hdata := domainToName_data d
  refine ⟨?_, ?_, ?_, ?_, ?_, domainToName_ne_empty d, by decide, by decide⟩
  · show (domainToName d).data.length = d.data.length
    rw [hdata, List.length_map]
  · show String.utf8ByteSize.go (domainToName d).data = String.utf8ByteSize.go d.data
    rw [hdata, utf8ByteSize_go_map_dot]
  · rw [hdata]
    intro hm
    obtain ⟨c, _, hc⟩ := List.mem_map.mp hm
    by_cases h : c = '.'
    · rw [if_pos h] at hc
      exact absurd hc (by decide)
    · rw [if_neg h] at hc
      exact h hc
  · intro i c hi
    rw [hdata, List.getElem?_map, hi]
    constructor
    · intro hc
      simp [hc]
    · intro hc
      simp [hc]
  · apply String.ext
    rw [domainToName_data, hdata, List.map_map]
    apply List.map_congr_left
    intro c _
    by_cases h : c = '.'
    · simp [h]
    · simp [h]

/-- C20 at `a.b`: the derived name is `a-b`, which is also what `a-b` derives. -/
theorem c20_domainToName_pointwise_witness :
    domainToName "a.b" = "a-b" ∧
    (domainToName "a.b").length = ("a.b" : String).length ∧
    (domainToName "a.b").utf8ByteSize = ("a.b" : String).utf8ByteSize ∧
    '.' ∉ (domainToName "a.b").data ∧
    (domainToName "a.b").data[0]? = some 'a' ∧
    (domainToName "a.b").data[1]? = some '-' ∧
    domainToName (domainToName "a.b") = domainToName "a.b" ∧
    domainToName "a.b" ≠ "" ∧
    (domainToName "a.b" = domainToName "a-b" ∧ "a.b" ≠ "a-b") :=
  have h := c20_domainToName_pointwise "a.b"
  ⟨by decide, h.1, h.2.1, h.2.2.1, (h.2.2.2.1 0 'a' rfl).1 (by decide),
    (h.2.2.2.1 1 '.' rfl).2 rfl, h.2.2.2.2.1, h.2.2.2.2.2.1 (by decide), h.2.2.2.2.2.2⟩

end Kd
